import Mathlib

/-!
Verification of the opensphere-jscodeshift migration engine against its
specification.  The JavaScript sources are shallowly embedded: text
processing is modelled over `List Char` (JavaScript strings restricted to
the ASCII inputs the transforms handle), and the jscodeshift/ESTree node
trees are modelled by a mutual inductive AST.  Each transform function is
translated from the corresponding function in the repository sources
(`src/utils/classes.js` and the unnamed transform files), keeping the
source names.
-/

namespace OSJ

/-! ## Character-list string utilities

JavaScript string primitives used by the transforms (`trim`, `split('\n')`,
`startsWith`, `includes`, `String.prototype.replace` with a string pattern,
which replaces only the first occurrence) modelled over `List Char`. -/

/-- JavaScript whitespace for `trim` / `\s`, restricted to the ASCII
whitespace characters that occur in the processed sources. -/
def isJsWs (c : Char) : Bool :=
  c = ' ' || c = '\t' || c = '\n' || c = '\r'

/-- `String.prototype.trim`: strip leading and trailing whitespace. -/
def trimL (s : List Char) : List Char :=
  ((s.dropWhile isJsWs).reverse.dropWhile isJsWs).reverse

/-- `str.split('\n')`: split on newlines, keeping empty segments. -/
def splitNL : List Char → List (List Char)
  | [] => [[]]
  | c :: rest =>
    if c = '\n' then [] :: splitNL rest
    else
      match splitNL rest with
      | [] => [[c]]
      | l :: ls => (c :: l) :: ls

/-- `str.startsWith(pat)`. -/
def startsWithL (pat s : List Char) : Bool :=
  pat.isPrefixOf s

/-- `str.includes(pat)`. -/
def containsL (s pat : List Char) : Bool :=
  if pat.isPrefixOf s then true
  else
    match s with
    | [] => false
    | _ :: rest => containsL rest pat

/-- `str.replace(pat, repl)` with a string pattern: replace only the first
occurrence, or return the string unchanged when the pattern is absent. -/
def replaceFirstL (s pat repl : List Char) : List Char :=
  if pat.isPrefixOf s then repl ++ s.drop pat.length
  else
    match s with
    | [] => []
    | c :: rest => c :: replaceFirstL rest pat repl

/-- Strip a trailing run of whitespace (the effect of replacing `\s+$`). -/
def trimRightWsL (s : List Char) : List Char :=
  (s.reverse.dropWhile isJsWs).reverse

/-- `str.replace(/\s+$/, repl)`: when the string ends in at least one
whitespace character the trailing whitespace run is replaced by `repl`,
otherwise (the `+` finds no match) the string is unchanged. -/
def replaceTrailingWsL (s repl : List Char) : List Char :=
  match s.reverse with
  | [] => s
  | c :: _ => if isJsWs c then trimRightWsL s ++ repl else s

/-- `name.replace(/_$/, '')`: drop a single trailing underscore. -/
def stripTrailingUnderscore (s : List Char) : List Char :=
  match s.reverse with
  | [] => s
  | c :: rest => if c = '_' then rest.reverse else s

/-! ## The comment-tag regular expressions of `src/utils/classes.js`

`CTOR_COMMENT_REGEXP = /@ngInject/`, `COMMENT_IGNORE_REGEXP = /@constructor/`
and `EXTENDS = /@extends/` are plain substring tests.
`EXTENDS_GENERIC = /@extends {.+<.+>}/` requires, somewhere in the line, the
literal `@extends {`, then at least one character, `<`, at least one
character, and `>}`; since `test` only asks for existence of a match,
greediness of `.+` is irrelevant and the pattern is an existence search. -/

/-- Search for an adjacent `>}` pair anywhere in the list. -/
def hasGtBraceL : List Char → Bool
  | '>' :: '\x7d' :: _ => true
  | _ :: rest => hasGtBraceL rest
  | [] => false

/-- Search for `<`, followed by at least one character and then `>}`. -/
def scanLtL : List Char → Bool
  | '<' :: rest =>
    (match rest with
     | _ :: r2 => hasGtBraceL r2
     | [] => false)
    || scanLtL rest
  | _ :: rest => scanLtL rest
  | [] => false

/-- `EXTENDS_GENERIC.test`: an occurrence of `@extends {` followed by at
least one character, `<`, at least one character, and `>}`. -/
def extendsGenericL : List Char → Bool
  | [] => false
  | c :: rest =>
    (("@extends \x7b".data.isPrefixOf (c :: rest)) &&
      (match (c :: rest).drop 10 with
       | _ :: r => scanLtL r
       | [] => false))
    || extendsGenericL rest

/-- `COMMENT_IGNORE_REGEXP.test` (`/@constructor/`). -/
def commentIgnoreTest (s : List Char) : Bool :=
  containsL s "@constructor".data

/-- `CTOR_COMMENT_REGEXP.test` (`/@ngInject/`). -/
def ctorCommentTest (s : List Char) : Bool :=
  containsL s "@ngInject".data

/-- `EXTENDS.test` (`/@extends/`). -/
def extendsTest (s : List Char) : Bool :=
  containsL s "@extends".data

/-! ## Comment splitter (`splitCommentsForClass`, `src/utils/classes.js`) -/

/-- A comment part is dropped by `createCommentBlockFromParts` when it is
the empty string (falsy) or trims to a bare `*`. -/
def isBlankPart (part : List Char) : Bool :=
  part.isEmpty || trimL part = ['*']

/-- Drop leading blank comment parts. -/
def dropLeadingBlanks : List (List Char) → List (List Char)
  | [] => []
  | p :: rest => if isBlankPart p then dropLeadingBlanks rest else p :: rest

/-- `createCommentBlockFromParts`: trim leading/trailing blank comment
lines, prepend `*` and append a single-space closer line, join with
newlines. -/
def createCommentBlockFromParts (commentParts : List (List Char)) : List Char :=
  let p1 := dropLeadingBlanks commentParts
  let p2 := (dropLeadingBlanks p1.reverse).reverse
  List.intercalate ['\n'] (['*'] :: (p2 ++ [[' ']]))

/-- The line-routing loop of `splitCommentsForClass`: walk the comment
lines carrying the `inParam` flag, returning the class-comment parts and
the constructor-comment parts (in order).  Translated line by line from
the `for` loop in the source. -/
def splitLoop : Bool → List (List Char) → List (List Char) × List (List Char)
  | _, [] => ([], [])
  | inParam, part :: rest =>
    let trimmed := trimL part
    -- assume multi-line params are indented at least two extra spaces
    let inParam1 := if inParam && !(startsWithL "*   ".data trimmed) then false else inParam
    if commentIgnoreTest trimmed then
      -- drop blacklisted comment
      splitLoop inParam1 rest
    else if extendsTest trimmed && !extendsGenericL trimmed then
      -- drop @extends unless it provides a generic type
      splitLoop inParam1 rest
    else if startsWithL "* @param".data trimmed || inParam1 then
      let (cls, ctor) := splitLoop true rest
      (cls, part :: ctor)
    else if ctorCommentTest trimmed then
      let (cls, ctor) := splitLoop inParam1 rest
      (cls, part :: ctor)
    else
      let (cls, ctor) := splitLoop inParam1 rest
      (part :: cls, ctor)

/-- `splitCommentsForClass`: trim the comment, split into lines, route each
line to the class or constructor partition, seed the constructor partition
with ` * Constructor.`, and wrap both partitions into comment blocks.
Returns `(body, ctor)`. -/
def splitCommentsForClass (comment : List Char) : List Char × List Char :=
  let origParts := splitNL (trimL comment)
  let (classParts, ctorParts) := splitLoop false origParts
  (createCommentBlockFromParts classParts,
   createCommentBlockFromParts (" * Constructor.".data :: ctorParts))

/-! ## Specification-side description of the splitter (claim C5)

The claim describes the splitter as a one-pass, stateful router: each line
is dropped (constructor-redundancy tag; `@extends` without a generic
parameter), routed to the constructor partition (parameter-tag line, a
continuation line while inside a parameter block per the indentation
threshold, injection-marker line), or routed to the class partition.  This
is written out independently as a route-classifying state machine and
proved equal to the source loop. -/

/-- Where the specification routes one line. -/
inductive LineRoute where
  | dropped
  | toCtor
  | toClass
deriving DecidableEq

/-- The specification's routing decision for one line, together with the
next parameter-block state.  Block membership ends at the first line below
the indentation threshold (a trimmed line not continuing with `*` and at
least three spaces). -/
def routeLineSpec (inBlock : Bool) (line : List Char) : LineRoute × Bool :=
  let t := trimL line
  let stillInBlock := inBlock && startsWithL "*   ".data t
  if commentIgnoreTest t then (.dropped, stillInBlock)
  else if extendsTest t && !extendsGenericL t then (.dropped, stillInBlock)
  else if startsWithL "* @param".data t then (.toCtor, true)
  else if stillInBlock then (.toCtor, true)
  else if ctorCommentTest t then (.toCtor, stillInBlock)
  else (.toClass, stillInBlock)

/-- Run the specification's router over all lines, collecting the class
and constructor partitions. -/
def routeSpecLoop : Bool → List (List Char) → List (List Char) × List (List Char)
  | _, [] => ([], [])
  | st, line :: rest =>
    match routeLineSpec st line with
    | (route, st') =>
      let (cls, ctor) := routeSpecLoop st' rest
      match route with
      | .dropped => (cls, ctor)
      | .toCtor => (cls, line :: ctor)
      | .toClass => (line :: cls, ctor)

/-- The `inParam` update in the source loop computes exactly the
specification's block-membership test. -/
theorem inParam_update_eq (b : Bool) (t : List Char) :
    (if b && !(startsWithL "*   ".data t) then false else b)
      = (b && startsWithL "*   ".data t) := by
  cases b <;> cases h : startsWithL "*   ".data t <;> simp [h]

theorem splitLoop_eq_routeSpecLoop (lines : List (List Char)) :
    ∀ b, splitLoop b lines = routeSpecLoop b lines := by
  induction lines with
  | nil => intro b; rfl
  | cons line rest ih =>
    intro b
    simp only [splitLoop, routeSpecLoop, routeLineSpec]
    cases b <;> cases hsw : startsWithL "*   ".data (trimL line) <;>
      by_cases h1 : commentIgnoreTest (trimL line) = true <;>
      by_cases h2 : (extendsTest (trimL line) && !extendsGenericL (trimL line)) = true <;>
      by_cases h3 : startsWithL "* @param".data (trimL line) = true <;>
      by_cases h5 : ctorCommentTest (trimL line) = true <;>
      simp [hsw, h1, h2, h3, h5, ih]

/-- C5 (confirmed): the splitter routes each line in one ordered, stateful
pass exactly as the specification describes: constructor-redundancy lines
and `@extends`-without-generic lines are dropped, parameter-tag lines and
continuation lines inside a parameter block (per the indentation
threshold) and injection-marker lines go to the constructor partition, and
every other line goes to the class partition. -/
theorem c5_comment_splitter_routing (comment : List Char) :
    splitCommentsForClass comment =
      (createCommentBlockFromParts (routeSpecLoop false (splitNL (trimL comment))).1,
       createCommentBlockFromParts
         (" * Constructor.".data :: (routeSpecLoop false (splitNL (trimL comment))).2)) := by
  simp only [splitCommentsForClass, splitLoop_eq_routeSpecLoop]

/-! ## The embedded syntax tree

A mutual inductive modelling the ESTree node shapes the transforms
inspect and build: identifiers, literals, `this`/`super`, member
expressions, calls, assignments, unary and binary expressions, `new`
expressions, function expressions, and the comment-block node the
export-property transform temporarily splices in as an expression.
Statements cover expression statements (with attached comment blocks),
variable declarations, class declarations, method definitions (class-body
members), `return`, `if`, as used by the transforms.  Comments are kept as
raw comment-block texts (`List Char`). -/

mutual

inductive Expr where
  | ident (name : String)
  | lit (value : String)
  | thisE
  | superE
  | member (obj : Expr) (prop : Expr) (computed : Bool)
  | callE (callee : Expr) (args : ExprList)
  | assignE (left : Expr) (right : Expr)
  | unaryE (op : String) (arg : Expr)
  | binaryE (op : String) (left : Expr) (right : Expr)
  | newE (callee : Expr) (args : ExprList)
  | fnExpr (params : List String) (body : StmtList)
  | commentBlockE (text : List Char)
deriving DecidableEq

inductive ExprList where
  | nil
  | cons (head : Expr) (tail : ExprList)
deriving DecidableEq

inductive OExpr where
  | none
  | some (e : Expr)
deriving DecidableEq

inductive Stmt where
  | exprStmt (comments : List (List Char)) (e : Expr)
  | varDecl (comments : List (List Char)) (kind : String) (name : String) (init : OExpr)
  | classDecl (comments : List (List Char)) (name : String) (superClass : OExpr) (body : StmtList)
  | methodDef (comments : List (List Char)) (kind : String) (isStatic : Bool) (name : String) (value : Expr)
  | returnStmt (e : Expr)
  | ifStmt (test : Expr) (cons : StmtList)
deriving DecidableEq

inductive StmtList where
  | nil
  | cons (head : Stmt) (tail : StmtList)
deriving DecidableEq

end

namespace ExprList

/-- `args[i]` (safe indexing, as `get-value` style access). -/
def get? : ExprList → Nat → Option Expr
  | .nil, _ => Option.none
  | .cons h _, 0 => Option.some h
  | .cons _ t, n + 1 => t.get? n

/-- `args.slice(n)`. -/
def dropN : ExprList → Nat → ExprList
  | l, 0 => l
  | .nil, _ => .nil
  | .cons _ t, n + 1 => t.dropN n

/-- Length of an argument list. -/
def length : ExprList → Nat
  | .nil => 0
  | .cons _ t => t.length + 1

end ExprList

namespace StmtList

/-- Append two statement lists (`Array.prototype.push` on a class body). -/
def append : StmtList → StmtList → StmtList
  | .nil, l => l
  | .cons h t, l => .cons h (t.append l)

end StmtList

/-! ## Qualified-name (NamespacePath) utilities

Modelled from the spec: the Pattern Matcher (§4.1) recognizes a member
path exactly equal to a dotted NamespacePath and resolves a qualified
reference to its dotted string (`createFindMemberExprObject` /
`memberExpressionToString` live in the excluded tree-primitive layer, so
their string-based matching is modelled here over path segments). -/

/-- A NamespacePath: first segment plus the remaining dot-separated
segments (always nonempty). -/
structure NsPath where
  base : String
  segs : List String
deriving DecidableEq

/-- Build the member-expression chain for a dotted NamespacePath
(`a.b.c` becomes `member (member (ident a) b) c`). -/
def dottedExpr (p : NsPath) : Expr :=
  p.segs.foldl (fun e s => .member e (.ident s) false) (.ident p.base)

/-- Extend a NamespacePath by one segment (template `` `${moduleName}.${prop}` ``). -/
def NsPath.child (p : NsPath) (prop : String) : NsPath :=
  ⟨p.base, p.segs ++ [prop]⟩

/-- Modelled from the spec: `memberExpressionToString` — resolve a
non-computed identifier chain to its dotted segments; other shapes have no
dotted string. -/
def memberExprToString : Expr → Option NsPath
  | .ident n => Option.some ⟨n, []⟩
  | .member o (.ident p) false =>
    (memberExprToString o).map fun q => ⟨q.base, q.segs ++ [p]⟩
  | _ => Option.none

/-! ## Tree traversals

The generic "find all descendant nodes matching shape S, then mutate"
operations of jscodeshift, specialized to the shapes the transforms use,
as mutual structural recursions over the embedded tree. -/

/-! ### Renaming `this.<name>` members (`renamePrivateFn`, export transform) -/

mutual

/-- Rename every member expression `this.<oldN>` (a `ThisExpression`
object with an identifier property named `oldN`) to `this.<newN>`,
everywhere in the expression. -/
def renameE (oldN newN : String) : Expr → Expr
  | .member obj prop c =>
    match obj, prop with
    | .thisE, .ident n =>
      if n = oldN then .member .thisE (.ident newN) c
      else .member .thisE (.ident n) c
    | o, p => .member (renameE oldN newN o) (renameE oldN newN p) c
  | .callE f a => .callE (renameE oldN newN f) (renameEL oldN newN a)
  | .assignE l r => .assignE (renameE oldN newN l) (renameE oldN newN r)
  | .unaryE op a => .unaryE op (renameE oldN newN a)
  | .binaryE op l r => .binaryE op (renameE oldN newN l) (renameE oldN newN r)
  | .newE f a => .newE (renameE oldN newN f) (renameEL oldN newN a)
  | .fnExpr ps b => .fnExpr ps (renameSL oldN newN b)
  | e => e

def renameEL (oldN newN : String) : ExprList → ExprList
  | .nil => .nil
  | .cons h t => .cons (renameE oldN newN h) (renameEL oldN newN t)

def renameO (oldN newN : String) : OExpr → OExpr
  | .none => .none
  | .some e => .some (renameE oldN newN e)

def renameS (oldN newN : String) : Stmt → Stmt
  | .exprStmt cs e => .exprStmt cs (renameE oldN newN e)
  | .varDecl cs k n i => .varDecl cs k n (renameO oldN newN i)
  | .classDecl cs n sc b => .classDecl cs n (renameO oldN newN sc) (renameSL oldN newN b)
  | .methodDef cs k st n v => .methodDef cs k st n (renameE oldN newN v)
  | .returnStmt e => .returnStmt (renameE oldN newN e)
  | .ifStmt t c => .ifStmt (renameE oldN newN t) (renameSL oldN newN c)

def renameSL (oldN newN : String) : StmtList → StmtList
  | .nil => .nil
  | .cons h t => .cons (renameS oldN newN h) (renameSL oldN newN t)

end

mutual

/-- Whether the tree contains a member expression `this.<name>` (a
self-reference to the member). -/
def hasThisRefE (name : String) : Expr → Bool
  | .member obj prop _ =>
    (match obj, prop with
     | .thisE, .ident n => n = name
     | _, _ => false)
    || hasThisRefE name obj || hasThisRefE name prop
  | .callE f a => hasThisRefE name f || hasThisRefEL name a
  | .assignE l r => hasThisRefE name l || hasThisRefE name r
  | .unaryE _ a => hasThisRefE name a
  | .binaryE _ l r => hasThisRefE name l || hasThisRefE name r
  | .newE f a => hasThisRefE name f || hasThisRefEL name a
  | .fnExpr _ b => hasThisRefSL name b
  | _ => false

def hasThisRefEL (name : String) : ExprList → Bool
  | .nil => false
  | .cons h t => hasThisRefE name h || hasThisRefEL name t

def hasThisRefO (name : String) : OExpr → Bool
  | .none => false
  | .some e => hasThisRefE name e

def hasThisRefS (name : String) : Stmt → Bool
  | .exprStmt _ e => hasThisRefE name e
  | .varDecl _ _ _ i => hasThisRefO name i
  | .classDecl _ _ sc b => hasThisRefO name sc || hasThisRefSL name b
  | .methodDef _ _ _ _ v => hasThisRefE name v
  | .returnStmt e => hasThisRefE name e
  | .ifStmt t c => hasThisRefE name t || hasThisRefSL name c

def hasThisRefSL (name : String) : StmtList → Bool
  | .nil => false
  | .cons h t => hasThisRefS name h || hasThisRefSL name t

end

/-! ### Replacing qualified references (the Reference Rewriter, §4.5) -/

mutual

/-- Replace every descendant node equal to `target` by `repl` (the
reference-rewrite step `root.find(...).forEach(path =>
jscs(path).replaceWith(repl))`); replaced nodes are not re-entered. -/
def replaceRefE (target repl : Expr) (e : Expr) : Expr :=
  if e = target then repl
  else
    match e with
    | .member o p c => .member (replaceRefE target repl o) (replaceRefE target repl p) c
    | .callE f a => .callE (replaceRefE target repl f) (replaceRefEL target repl a)
    | .assignE l r => .assignE (replaceRefE target repl l) (replaceRefE target repl r)
    | .unaryE op a => .unaryE op (replaceRefE target repl a)
    | .binaryE op l r => .binaryE op (replaceRefE target repl l) (replaceRefE target repl r)
    | .newE f a => .newE (replaceRefE target repl f) (replaceRefEL target repl a)
    | .fnExpr ps b => .fnExpr ps (replaceRefSL target repl b)
    | e' => e'

def replaceRefEL (target repl : Expr) : ExprList → ExprList
  | .nil => .nil
  | .cons h t => .cons (replaceRefE target repl h) (replaceRefEL target repl t)

def replaceRefO (target repl : Expr) : OExpr → OExpr
  | .none => .none
  | .some e => .some (replaceRefE target repl e)

def replaceRefS (target repl : Expr) : Stmt → Stmt
  | .exprStmt cs e => .exprStmt cs (replaceRefE target repl e)
  | .varDecl cs k n i => .varDecl cs k n (replaceRefO target repl i)
  | .classDecl cs n sc b => .classDecl cs n (replaceRefO target repl sc) (replaceRefSL target repl b)
  | .methodDef cs k st n v => .methodDef cs k st n (replaceRefE target repl v)
  | .returnStmt e => .returnStmt (replaceRefE target repl e)
  | .ifStmt t c => .ifStmt (replaceRefE target repl t) (replaceRefSL target repl c)

def replaceRefSL (target repl : Expr) : StmtList → StmtList
  | .nil => .nil
  | .cons h t => .cons (replaceRefS target repl h) (replaceRefSL target repl t)

end

/-- Apply the reference rewrite to a whole program (list of top-level
statements). -/
def replaceRefProg (target repl : Expr) (prog : List Stmt) : List Stmt :=
  prog.map (replaceRefS target repl)

/-! ### Searching for a qualified reference (`jscs(node).find(...).length`) -/

mutual

/-- Whether the expression contains a descendant node equal to `target`. -/
def containsRefE (target : Expr) (e : Expr) : Bool :=
  if e = target then true
  else
    match e with
    | .member o p _ => containsRefE target o || containsRefE target p
    | .callE f a => containsRefE target f || containsRefEL target a
    | .assignE l r => containsRefE target l || containsRefE target r
    | .unaryE _ a => containsRefE target a
    | .binaryE _ l r => containsRefE target l || containsRefE target r
    | .newE f a => containsRefE target f || containsRefEL target a
    | .fnExpr _ b => containsRefSL target b
    | _ => false

def containsRefEL (target : Expr) : ExprList → Bool
  | .nil => false
  | .cons h t => containsRefE target h || containsRefEL target t

def containsRefO (target : Expr) : OExpr → Bool
  | .none => false
  | .some e => containsRefE target e

def containsRefS (target : Expr) : Stmt → Bool
  | .exprStmt _ e => containsRefE target e
  | .varDecl _ _ _ i => containsRefO target i
  | .classDecl _ _ sc b => containsRefO target sc || containsRefSL target b
  | .methodDef _ _ _ _ v => containsRefE target v
  | .returnStmt e => containsRefE target e
  | .ifStmt t c => containsRefE target t || containsRefSL target c

def containsRefSL (target : Expr) : StmtList → Bool
  | .nil => false
  | .cons h t => containsRefS target h || containsRefSL target t

end

/-! ### Counting assignment sites to a static-property path (`isReassigned`) -/

mutual

/-- Count the assignment expressions whose left side is a member
expression with object equal to the dotted module path and property named
`propName` (the filter passed to
`root.find(jscs.AssignmentExpression, ...)` in `isReassigned`). -/
def countAssignE (modExpr : Expr) (propName : String) : Expr → Nat
  | .assignE l r =>
    (match l with
     | .member o (.ident p) _ => if o = modExpr && p = propName then 1 else 0
     | _ => 0)
    + countAssignE modExpr propName l + countAssignE modExpr propName r
  | .member o p _ => countAssignE modExpr propName o + countAssignE modExpr propName p
  | .callE f a => countAssignE modExpr propName f + countAssignEL modExpr propName a
  | .unaryE _ a => countAssignE modExpr propName a
  | .binaryE _ l r => countAssignE modExpr propName l + countAssignE modExpr propName r
  | .newE f a => countAssignE modExpr propName f + countAssignEL modExpr propName a
  | .fnExpr _ b => countAssignSL modExpr propName b
  | _ => 0

def countAssignEL (modExpr : Expr) (propName : String) : ExprList → Nat
  | .nil => 0
  | .cons h t => countAssignE modExpr propName h + countAssignEL modExpr propName t

def countAssignO (modExpr : Expr) (propName : String) : OExpr → Nat
  | .none => 0
  | .some e => countAssignE modExpr propName e

def countAssignS (modExpr : Expr) (propName : String) : Stmt → Nat
  | .exprStmt _ e => countAssignE modExpr propName e
  | .varDecl _ _ _ i => countAssignO modExpr propName i
  | .classDecl _ _ sc b => countAssignO modExpr propName sc + countAssignSL modExpr propName b
  | .methodDef _ _ _ _ v => countAssignE modExpr propName v
  | .returnStmt e => countAssignE modExpr propName e
  | .ifStmt t c => countAssignE modExpr propName t + countAssignSL modExpr propName c

def countAssignSL (modExpr : Expr) (propName : String) : StmtList → Nat
  | .nil => 0
  | .cons h t => countAssignS modExpr propName h + countAssignSL modExpr propName t

end

/-- Count over a whole program. -/
def countAssignProg (modExpr : Expr) (propName : String) (prog : List Stmt) : Nat :=
  (prog.map (countAssignS modExpr propName)).sum

/-! ## The export-property transform (unnamed source file: `goog.exportProperty`) -/

/-- The callee filter of `googExportPropertyFilter`:
`{object: {name: 'goog'}, property: {name: 'exportProperty'}}`. -/
def isGEPCallee : Expr → Bool
  | .member (.ident o) (.ident p) _ => o = "goog" && p = "exportProperty"
  | _ => false

/-- `isGEPCall` (export-property transform): a call expression whose callee
matches the `goog.exportProperty` filter. -/
def isGEPCall : Expr → Bool
  | .callE callee _ => isGEPCallee callee
  | _ => false

/-- `isExportableCall`: a `goog.exportProperty` call whose first argument
is a member of the `prototype` slot, whose second argument is a (truthy)
string literal export name, and whose third argument names a member equal
to the export name or to the export name with a trailing underscore
appended. -/
def isExportableCall : Expr → Bool
  | .callE callee args =>
    isGEPCall (.callE callee args) &&
    (match args with
     | .cons a0 (.cons a1 (.cons a2 _)) =>
       (match a0 with
        | .member _ (.ident p) _ => p = "prototype"
        | _ => false) &&
       (match a1, a2 with
        | .lit exportName, .member _ (.ident fnName) _ =>
          exportName ≠ "" && fnName ≠ "" &&
          (exportName = fnName || exportName ++ "_" = fnName)
        | _, _ => false)
     | _ => false)
  | _ => false

mutual

/-- The fallback pass of the export-property transform: every remaining
`goog.exportProperty(a, b, c)` call is replaced by the assignment
`a.b = c` built from its first three arguments (extra arguments are
dropped).  Children are rewritten as well, mirroring the `forEach` over
every found call.  A malformed `goog.exportProperty` call with fewer than
three arguments would make the source's node builders throw; it is kept
unchanged here and excluded by the well-formedness predicate below. -/
def gepFallbackE : Expr → Expr
  | .callE callee (.cons a0 (.cons a1 (.cons a2 rest))) =>
    if isGEPCall (.callE callee (.cons a0 (.cons a1 (.cons a2 rest)))) then
      .assignE (.member (gepFallbackE a0) (gepFallbackE a1) false) (gepFallbackE a2)
    else
      .callE (gepFallbackE callee)
        (.cons (gepFallbackE a0)
          (.cons (gepFallbackE a1) (.cons (gepFallbackE a2) (gepFallbackEL rest))))
  | .callE callee args => .callE (gepFallbackE callee) (gepFallbackEL args)
  | .member o p c => .member (gepFallbackE o) (gepFallbackE p) c
  | .assignE l r => .assignE (gepFallbackE l) (gepFallbackE r)
  | .unaryE op a => .unaryE op (gepFallbackE a)
  | .binaryE op l r => .binaryE op (gepFallbackE l) (gepFallbackE r)
  | .newE f a => .newE (gepFallbackE f) (gepFallbackEL a)
  | .fnExpr ps b => .fnExpr ps (gepFallbackSL b)
  | e => e

def gepFallbackEL : ExprList → ExprList
  | .nil => .nil
  | .cons h t => .cons (gepFallbackE h) (gepFallbackEL t)

def gepFallbackO : OExpr → OExpr
  | .none => .none
  | .some e => .some (gepFallbackE e)

def gepFallbackS : Stmt → Stmt
  | .exprStmt cs e => .exprStmt cs (gepFallbackE e)
  | .varDecl cs k n i => .varDecl cs k n (gepFallbackO i)
  | .classDecl cs n sc b => .classDecl cs n (gepFallbackO sc) (gepFallbackSL b)
  | .methodDef cs k st n v => .methodDef cs k st n (gepFallbackE v)
  | .returnStmt e => .returnStmt (gepFallbackE e)
  | .ifStmt t c => .ifStmt (gepFallbackE t) (gepFallbackSL c)

def gepFallbackSL : StmtList → StmtList
  | .nil => .nil
  | .cons h t => .cons (gepFallbackS h) (gepFallbackSL t)

end

mutual

/-- Whether the tree still contains a `goog.exportProperty` call. -/
def containsGEPE : Expr → Bool
  | .callE callee args =>
    isGEPCall (.callE callee args) || containsGEPE callee || containsGEPEL args
  | .member o p _ => containsGEPE o || containsGEPE p
  | .assignE l r => containsGEPE l || containsGEPE r
  | .unaryE _ a => containsGEPE a
  | .binaryE _ l r => containsGEPE l || containsGEPE r
  | .newE f a => containsGEPE f || containsGEPEL a
  | .fnExpr _ b => containsGEPSL b
  | _ => false

def containsGEPEL : ExprList → Bool
  | .nil => false
  | .cons h t => containsGEPE h || containsGEPEL t

def containsGEPO : OExpr → Bool
  | .none => false
  | .some e => containsGEPE e

def containsGEPS : Stmt → Bool
  | .exprStmt _ e => containsGEPE e
  | .varDecl _ _ _ i => containsGEPO i
  | .classDecl _ _ sc b => containsGEPO sc || containsGEPSL b
  | .methodDef _ _ _ _ v => containsGEPE v
  | .returnStmt e => containsGEPE e
  | .ifStmt t c => containsGEPE t || containsGEPSL c

def containsGEPSL : StmtList → Bool
  | .nil => false
  | .cons h t => containsGEPS h || containsGEPSL t

end

mutual

/-- Well-formedness for the export-property transform: every
`goog.exportProperty` call in the tree carries at least three arguments
(the shapes the transform is written for; fewer arguments would make the
source throw while building the replacement assignment). -/
def wfGEPE : Expr → Bool
  | .callE callee args =>
    (!isGEPCall (.callE callee args) || decide (3 ≤ args.length)) &&
    wfGEPE callee && wfGEPEL args
  | .member o p _ => wfGEPE o && wfGEPE p
  | .assignE l r => wfGEPE l && wfGEPE r
  | .unaryE _ a => wfGEPE a
  | .binaryE _ l r => wfGEPE l && wfGEPE r
  | .newE f a => wfGEPE f && wfGEPEL a
  | .fnExpr _ b => wfGEPSL b
  | _ => true

def wfGEPEL : ExprList → Bool
  | .nil => true
  | .cons h t => wfGEPE h && wfGEPEL t

def wfGEPO : OExpr → Bool
  | .none => true
  | .some e => wfGEPE e

def wfGEPS : Stmt → Bool
  | .exprStmt _ e => wfGEPE e
  | .varDecl _ _ _ i => wfGEPO i
  | .classDecl _ _ sc b => wfGEPO sc && wfGEPSL b
  | .methodDef _ _ _ _ v => wfGEPE v
  | .returnStmt e => wfGEPE e
  | .ifStmt t c => wfGEPE t && wfGEPSL c

def wfGEPSL : StmtList → Bool
  | .nil => true
  | .cons h t => wfGEPS h && wfGEPSL t

end

/-! ## Equality-helper conversion (claim C9)

The callers `isdefandnotnull.js` and `isdef.js` are in the sources; the
shared `calltobinary` utility they configure is not.  Modelled from the
spec (§6): each equality-helper conversion matches a call with a fixed
callee identity, and replaces it with a binary comparison of the call's
argument against the configured right-hand side, using the configured
`expression` operator for a plain call and the configured `notExpression`
operator when the call is directly negated by an enclosing unary `!`. -/

/-- The options object passed to `callToBinary` by each helper transform. -/
structure BinaryOpts where
  expression : String
  notExpression : String
  rightSide : Expr
deriving DecidableEq

/-- Whether an expression is a call to the configured helper
(`{callee: {object: {name: obj}, property: {name: prop}}}`) carrying the
checked expression as its argument. -/
def isHelperCall (obj prop : String) : Expr → Bool
  | .callE (.member (.ident o) (.ident p) _) (.cons _ .nil) => o = obj && p = prop
  | _ => false

mutual

/-- Modelled from the spec: the `calltobinary` utility (absent from the
provided sources).  Rewrites every helper call to a binary comparison,
negating the operator when the call sits directly under a unary `!`. -/
def callToBinaryE (obj prop : String) (opts : BinaryOpts) : Expr → Expr
  | .unaryE op (.callE (.member (.ident o) (.ident p) c) (.cons arg .nil)) =>
    if op = "!" && o = obj && p = prop then
      .binaryE opts.notExpression (callToBinaryE obj prop opts arg) opts.rightSide
    else if o = obj && p = prop then
      .unaryE op (.binaryE opts.expression (callToBinaryE obj prop opts arg) opts.rightSide)
    else
      .unaryE op
        (.callE (.member (.ident o) (.ident p) c) (.cons (callToBinaryE obj prop opts arg) .nil))
  | .unaryE op a => .unaryE op (callToBinaryE obj prop opts a)
  | .callE (.member (.ident o) (.ident p) c) (.cons arg .nil) =>
    if o = obj && p = prop then
      .binaryE opts.expression (callToBinaryE obj prop opts arg) opts.rightSide
    else
      .callE (.member (.ident o) (.ident p) c) (.cons (callToBinaryE obj prop opts arg) .nil)
  | .callE callee args =>
    .callE (callToBinaryE obj prop opts callee) (callToBinaryEL obj prop opts args)
  | .member o p c => .member (callToBinaryE obj prop opts o) (callToBinaryE obj prop opts p) c
  | .assignE l r => .assignE (callToBinaryE obj prop opts l) (callToBinaryE obj prop opts r)
  | .binaryE op l r => .binaryE op (callToBinaryE obj prop opts l) (callToBinaryE obj prop opts r)
  | .newE f a => .newE (callToBinaryE obj prop opts f) (callToBinaryEL obj prop opts a)
  | .fnExpr ps b => .fnExpr ps (callToBinarySL obj prop opts b)
  | e => e

def callToBinaryEL (obj prop : String) (opts : BinaryOpts) : ExprList → ExprList
  | .nil => .nil
  | .cons h t => .cons (callToBinaryE obj prop opts h) (callToBinaryEL obj prop opts t)

def callToBinaryO (obj prop : String) (opts : BinaryOpts) : OExpr → OExpr
  | .none => .none
  | .some e => .some (callToBinaryE obj prop opts e)

def callToBinaryS (obj prop : String) (opts : BinaryOpts) : Stmt → Stmt
  | .exprStmt cs e => .exprStmt cs (callToBinaryE obj prop opts e)
  | .varDecl cs k n i => .varDecl cs k n (callToBinaryO obj prop opts i)
  | .classDecl cs n sc b =>
    .classDecl cs n (callToBinaryO obj prop opts sc) (callToBinarySL obj prop opts b)
  | .methodDef cs k st n v => .methodDef cs k st n (callToBinaryE obj prop opts v)
  | .returnStmt e => .returnStmt (callToBinaryE obj prop opts e)
  | .ifStmt t c => .ifStmt (callToBinaryE obj prop opts t) (callToBinarySL obj prop opts c)

def callToBinarySL (obj prop : String) (opts : BinaryOpts) : StmtList → StmtList
  | .nil => .nil
  | .cons h t => .cons (callToBinaryS obj prop opts h) (callToBinarySL obj prop opts t)

end

/-- The `isdef` transform (sources, `isdef.js`): `goog.isDef` calls with
operators `!==` / `===` against the identifier `undefined`. -/
def isdefTransform : Expr → Expr :=
  callToBinaryE "goog" "isDef" ⟨"!==", "===", .ident "undefined"⟩

/-- The `isdefandnotnull` transform (sources, `isdefandnotnull.js`):
`goog.isDefAndNotNull` calls with operators `!=` / `==` against the
identifier `null`. -/
def isdefandnotnullTransform : Expr → Expr :=
  callToBinaryE "goog" "isDefAndNotNull" ⟨"!=", "==", .ident "null"⟩

/-! ## Class Registry lookups and the class-conversion passes

Each pass in `classes.js` begins with `const classDef =
getClassNode(moduleName)` and guards its work on the lookup result.  The
lookup result is passed in explicitly here (`Option ClassNode`); the
registry's node is aliased into the tree, so a pass that pushes onto
`classDef.body` is modelled as returning the updated class node. -/

/-- The class declaration node a pass obtains from the Class Registry:
doc comments, class name, superclass link, and the body of method
definitions. -/
structure ClassNode where
  comments : List (List Char)
  name : String
  superClass : OExpr
  body : StmtList
deriving DecidableEq

/-- Set the comments of the last method in a class body
(`classMethod.comments = ...` after `addMethodToClass` pushed it, through
the alias). -/
def setLastComments : StmtList → List (List Char) → StmtList
  | .nil, _ => .nil
  | .cons (.methodDef _ k st n v) .nil, cs => .cons (.methodDef cs k st n v) .nil
  | .cons s .nil, _ => .cons s .nil
  | .cons s t, cs => .cons s (setLastComments t cs)

/-- `addMethodToClass` (`src/utils/classes.js`): when the registry holds a
class for the module, push a method definition onto its body and return
it; when the lookup finds nothing, nothing is created or modified and the
result is absent. -/
def addMethodToClass (classDef : Option ClassNode) (methodName : String)
    (methodValue : Expr) (isStatic : Bool) : Option Stmt × Option ClassNode :=
  match classDef with
  | Option.none => (Option.none, Option.none)
  | Option.some c =>
    let classMethod := Stmt.methodDef [] "method" isStatic methodName methodValue
    (Option.some classMethod,
     Option.some { c with body := c.body.append (.cons classMethod .nil) })

/-- `moveInheritsToClass`: when the registry holds a class, set its
superclass link to the second argument of the `goog.inherits` call and
remove the call (the Bool result); when the lookup finds nothing, nothing
happens and the call node is kept. -/
def moveInheritsToClass (classDef : Option ClassNode) (args : ExprList) :
    Option ClassNode × Bool :=
  match classDef with
  | Option.none => (Option.none, false)
  | Option.some c =>
    let sc := match args.get? 1 with
      | Option.some e => OExpr.some e
      | Option.none => OExpr.none
    (Option.some { c with superClass := sc }, true)

/-- The comment synthesized for the module-scoped singleton binding. -/
def singletonInstanceComment (className : String) : List Char :=
  "*\n * Global ".data ++ className.data ++ " instance.\n * @type \x7b".data
    ++ className.data ++ "|undefined\x7d\n ".data

/-- The comment synthesized for the `getInstance` accessor. -/
def getInstanceComment (className : String) : List Char :=
  "*\n * Get the global instance.\n * @return \x7b!".data ++ className.data ++ "\x7d\n ".data

/-- The generated accessor body:
`if (!instance) { instance = new <C>(); } return instance;`. -/
def getInstanceBody (className : String) : StmtList :=
  .cons (.ifStmt (.unaryE "!" (.ident "instance"))
          (.cons (.exprStmt [] (.assignE (.ident "instance") (.newE (.ident className) .nil)))
            .nil))
    (.cons (.returnStmt (.ident "instance")) .nil)

/-- `moveSingletonToClass` (unnamed classes module): when the registry
holds a class, the `goog.addSingletonGetter` call's statement is replaced
by a module-scoped `let instance;` binding (initially unset) carrying a
synthesized comment, and a static `getInstance` method is pushed onto the
class via `addMethodToClass`, with its own synthesized comment set through
the alias.  When the lookup finds nothing, nothing happens. -/
def moveSingletonToClass (classDef : Option ClassNode) : Option (Stmt × ClassNode) :=
  match classDef with
  | Option.none => Option.none
  | Option.some c =>
    let varDeclaration := Stmt.varDecl [singletonInstanceComment c.name] "let" "instance" OExpr.none
    let getInstanceFn := Expr.fnExpr [] (getInstanceBody c.name)
    match addMethodToClass (Option.some c) "getInstance" getInstanceFn true with
    | (_, Option.some c') =>
      Option.some (varDeclaration,
        { c' with body := setLastComments c'.body [getInstanceComment c.name] })
    | (_, Option.none) => Option.none

/-- `addStaticGetToClass`: when the registry holds a class, the static
property assignment at index `i` becomes a static `get` accessor on the
class returning the original value, with `\n * @const` stripped from the
first attached comment; the assignment is removed.  When the lookup finds
nothing, the program is untouched. -/
def addStaticGetToClass (classDef : Option ClassNode) (root : List Stmt) (i : Nat) :
    List Stmt × Option ClassNode :=
  match classDef with
  | Option.none => (root, Option.none)
  | Option.some c =>
    match root.get? i with
    | Option.some (.exprStmt cs (.assignE (.member _ (.ident propertyName) _) right)) =>
      let getBlock := StmtList.cons (.returnStmt right) .nil
      let getFn := Expr.fnExpr [] getBlock
      let staticComments : List (List Char) :=
        match cs.head? with
        | Option.some c0 => [replaceFirstL c0 "\n * @const".data []]
        | Option.none => []
      let staticGet := Stmt.methodDef staticComments "get" true propertyName getFn
      (root.eraseIdx i, Option.some { c with body := c.body.append (.cons staticGet .nil) })
    | _ => (root, Option.some c)

/-- The line filter in `convertPrivateClassPropertyToConst`: drop comment
lines that trim exactly to `* @private` or `* @const`. -/
def filterPrivConst (c : List Char) : List Char :=
  List.intercalate ['\n'] ((splitNL c).filter
    (fun line => !(trimL line = "* @private".data || trimL line = "* @const".data)))

/-- `insertBeforeClass`: insert `node` before every top-level class
declaration named `className`. -/
def insertBeforeClass : List Stmt → String → Stmt → List Stmt
  | [], _, _ => []
  | .classDecl cs n sc b :: rest, className, node =>
    if n = className then
      node :: .classDecl cs n sc b :: insertBeforeClass rest className node
    else .classDecl cs n sc b :: insertBeforeClass rest className node
  | s :: rest, className, node => s :: insertBeforeClass rest className node

/-- `convertPrivateClassPropertyToConst` (`src/utils/classes.js`): the
private static property assignment `<modPath>.<prop> = <right>` at index
`i` becomes a `const` binding whose comment drops the `* @private` /
`* @const` lines.  When the registry holds the class, the binding is
placed at the end of the program if its value references the class, and
immediately before the class declaration otherwise, the assignment being
removed; when the registry lookup finds nothing, the assignment statement
is replaced by the binding in the same position.  In all cases every
remaining qualified reference to `<modPath>.<prop>` is rewritten to the
new local name. -/
def convertPrivateClassPropertyToConst (classDef : Option ClassNode)
    (root : List Stmt) (i : Nat) (modPath : NsPath) : List Stmt :=
  match root.get? i with
  | Option.some (.exprStmt cs (.assignE (.member _ (.ident propertyName) _) right)) =>
    let newComments : List (List Char) :=
      match cs.getLast? with
      | Option.some cLast => [filterPrivConst cLast]
      | Option.none => []
    let varDeclaration := Stmt.varDecl newComments "const" propertyName (OExpr.some right)
    let root1 :=
      match classDef with
      | Option.some c =>
        if containsRefE (dottedExpr modPath) right then
          -- references the class, move to the end of the file
          (root.eraseIdx i) ++ [varDeclaration]
        else
          -- move prior to the class definition
          insertBeforeClass (root.eraseIdx i) c.name varDeclaration
      | Option.none =>
        -- replace in the same position
        root.set i varDeclaration
    replaceRefProg (dottedExpr (modPath.child propertyName)) (.ident propertyName) root1
  | _ => root

/-- Modelled from the spec: the "is this private" inference (§9), a pure
predicate over the declaration's annotation-comment tag set — some
attached comment carries the `@private` visibility tag (`isPrivate` lives
in the excluded `goog` utility module). -/
def isPrivateComments (cs : List (List Char)) : Bool :=
  cs.any (fun c => containsL c "@private".data)

/-- `convertStaticProperty` (`src/utils/classes.js`): a function-valued
static property becomes a static method via `addMethodToClass` — the
source then sets `classMethod.comments` unconditionally, which throws a
`TypeError` when no class was registered (`Except.error` here); a private
non-function value goes through `convertPrivateClassPropertyToConst`, and
any other value through `addStaticGetToClass`. -/
def convertStaticProperty (classDef : Option ClassNode) (root : List Stmt) (i : Nat)
    (modPath : NsPath) : Except String (List Stmt × Option ClassNode) :=
  match root.get? i with
  | Option.some (.exprStmt cs (.assignE (.member _ (.ident propName) _) right)) =>
    match right with
    | .fnExpr ps b =>
      match addMethodToClass classDef propName (.fnExpr ps b) true with
      | (Option.some _, Option.some c') =>
        Except.ok (root.eraseIdx i, Option.some { c' with body := setLastComments c'.body cs })
      | _ => Except.error "TypeError: cannot set comments of undefined"
    | _ =>
      if isPrivateComments cs then
        Except.ok (convertPrivateClassPropertyToConst classDef root i modPath, classDef)
      else
        Except.ok (addStaticGetToClass classDef root i)
  | _ => Except.ok (root, classDef)

/-! ## Inheritance rewrite helpers (claims C6, C7) -/

/-- `replaceBaseWithSuper` (`src/utils/classes.js`): a
`<class>.base(self, memberName, ...)` call with argument list `args`.
When the second argument is a string literal, the call is replaced: the
constructor sentinel yields a bare `super(...)` invocation, any other
member name a `super.<name>(...)` invocation, in both cases dropping the
first two arguments and forwarding the rest; otherwise no replacement is
made. -/
def replaceBaseWithSuper (args : ExprList) : Option Expr :=
  match args.get? 1 with
  | Option.some (.lit fnName) =>
    let superArgs := args.dropN 2
    if fnName = "constructor" then Option.some (.callE .superE superArgs)
    else Option.some (.callE (.member .superE (.ident fnName) false) superArgs)
  | _ => Option.none

/-- The structured warnings the passes emit (`logger.warn`). -/
inductive WarnMsg where
  | superclassOtherClass (moduleName : NsPath) (found : Option NsPath)
deriving DecidableEq

/-- `replaceSuperclassWithSuper` (`src/utils/classes.js`): the matched
pattern `<obj>.superClass_.<fnName>.call(<callArgs>)`, inside the class
whose NamespacePath is `modPath`.  When the dotted string of `obj` equals
the module path, the whole call expression is replaced by
`super.<fnName>(...)` with the first (self) argument dropped; otherwise a
non-fatal warning is emitted and nothing is replaced. -/
def replaceSuperclassWithSuper (modPath : NsPath) (obj : Expr) (fnName : String)
    (callArgs : ExprList) : Option Expr × List WarnMsg :=
  let className := memberExprToString obj
  if className = Option.some modPath then
    -- classes match, convert to super
    let superMember := Expr.member .superE (.ident fnName) false
    let superArgs := callArgs.dropN 1
    (Option.some (.callE superMember superArgs), [])
  else
    (Option.none, [.superclassOtherClass modPath className])

/-- The `forEach` over every matched `superClass_` pattern: each
occurrence is processed independently and processing continues past
warnings. -/
def replaceSuperclassPass (modPath : NsPath) :
    List (Expr × String × ExprList) → List (Option Expr) × List WarnMsg
  | [] => ([], [])
  | (obj, fnName, args) :: rest =>
    let r := replaceSuperclassWithSuper modPath obj fnName args
    let rs := replaceSuperclassPass modPath rest
    (r.1 :: rs.1, r.2 ++ rs.2)

/-! ## Module-declaration rewrite (`replaceProvidesWithModules`, claim C3)

Embedded from the unnamed classes module (the newer revision): each
`goog.provide` call is removed and a `goog.module` declaration with the
same arguments is unshifted onto the program body; on the first one a
`goog.module.declareLegacyNamespace()` statement is unshifted first. -/

/-- The callee of a namespace export call. -/
def googProvideCallee : Expr := .member (.ident "goog") (.ident "provide") false

/-- The callee of a module declaration. -/
def googModuleCallee : Expr := .member (.ident "goog") (.ident "module") false

/-- `createFindCallFn('goog.provide')` on a top-level statement. -/
def isProvideStmt : Stmt → Bool
  | .exprStmt _ (.callE callee _) => callee = googProvideCallee
  | _ => false

/-- The comments attached to a statement. -/
def stmtComments : Stmt → List (List Char)
  | .exprStmt cs _ => cs
  | .varDecl cs _ _ _ => cs
  | .classDecl cs _ _ _ => cs
  | .methodDef cs _ _ _ _ => cs
  | _ => []

/-- The argument list of a provide-call statement. -/
def provideArgs : Stmt → ExprList
  | .exprStmt _ (.callE _ args) => args
  | _ => .nil

/-- `args[0].value`: the module name pushed onto the result list
(`Option.none` models the `undefined` a non-literal argument yields). -/
def provideNameOf (s : Stmt) : Option String :=
  match (provideArgs s).get? 0 with
  | Option.some (.lit v) => Option.some v
  | _ => Option.none

/-- The `goog.module` declaration built from a provide call: same
arguments, comments carried over (`createCall('goog.module', args)`). -/
def moduleStmtOf (s : Stmt) : Stmt :=
  .exprStmt (stmtComments s) (.callE googModuleCallee (provideArgs s))

/-- The legacy-compatibility marker statement
(`goog.module.declareLegacyNamespace()`). -/
def legacyNamespaceStmt : Stmt :=
  .exprStmt [] (.callE (.member googModuleCallee (.ident "declareLegacyNamespace") false) .nil)

/-- Remove the first statement equal to `s` (`jscs(path).remove()` keyed
to the found node). -/
def removeFirstStmt (s : Stmt) : List Stmt → List Stmt
  | [] => []
  | t :: rest => if t = s then rest else t :: removeFirstStmt s rest

/-- The `forEach` over the found provide calls: remove the call, unshift
the legacy marker on the first iteration, unshift the module declaration,
and collect the module name. -/
def rpwmLoop : List Stmt → Nat → List Stmt → List Stmt × List (Option String)
  | body, _, [] => (body, [])
  | body, idx, p :: ps =>
    let body1 := removeFirstStmt p body
    let body2 := if idx = 0 then legacyNamespaceStmt :: body1 else body1
    let body3 := moduleStmtOf p :: body2
    let res := rpwmLoop body3 (idx + 1) ps
    (res.1, provideNameOf p :: res.2)

/-- `replaceProvidesWithModules` (unnamed classes module): rewrite every
`goog.provide` into a `goog.module` declaration and return the module
names in source order. -/
def replaceProvidesWithModules (body : List Stmt) : List Stmt × List (Option String) :=
  rpwmLoop body 0 (body.filter isProvideStmt)

/-! ## Namespace-expression conversion (`isReassigned` /
`convertNamespaceExpression`, claim C4) -/

/-- `isReassigned` (unnamed classes module): whether the program holds
more than one assignment site to `<modPath>.<propName>`. -/
def isReassigned (root : List Stmt) (modPath : NsPath) (propName : String) : Bool :=
  decide (1 < countAssignProg (dottedExpr modPath) propName root)

/-- `convertNamespaceExpression` (unnamed classes module): the namespace
expression statement at index `i` (an assignment
`<modPath>.<prop> = <rhs>` or a bare `<modPath>.<prop>` reference).  A
private one becomes a module-scoped binding — `const` for an assignment
that is not reassigned elsewhere, `let` otherwise — with `\n * @private`
stripped from its comment; a public one is rewritten onto `exports`.  In
both cases remaining qualified references are rewritten. -/
def convertNamespaceExpression (root : List Stmt) (i : Nat) (modPath : NsPath) :
    List Stmt :=
  match root.get? i with
  | Option.some (.exprStmt cs e) =>
    let info : Option (Bool × String × OExpr) :=
      match e with
      | .assignE (.member _ (.ident p) _) r => Option.some (true, p, OExpr.some r)
      | .member _ (.ident p) _ => Option.some (false, p, OExpr.none)
      | _ => Option.none
    match info with
    | Option.none => root
    | Option.some (isAssignment, propName, rhs) =>
      if isPrivateComments cs then
        let kind := if isAssignment && !isReassigned root modPath propName then "const" else "let"
        let newComments : List (List Char) :=
          match cs.getLast? with
          | Option.some cl => [replaceFirstL cl "\n * @private".data []]
          | Option.none => []
        let varDeclaration := Stmt.varDecl newComments kind propName rhs
        let root1 := root.set i varDeclaration
        replaceRefProg (dottedExpr (modPath.child propName)) (.ident propName) root1
      else
        let memberExpr := dottedExpr ⟨"exports", [propName]⟩
        let e' :=
          match e with
          | .assignE (.member _ (.ident _) _) r => Expr.assignE memberExpr r
          | .member _ (.ident p) mc => Expr.member (.ident "exports") (.ident p) mc
          | other => other
        let root1 := root.set i (.exprStmt cs e')
        replaceRefProg (dottedExpr (modPath.child propName)) memberExpr root1
  | _ => root

/-! ## A small interpreter for the generated singleton accessor (claim C2)

To check the lazily-initialized behaviour of the generated `getInstance`
body, a one-variable interpreter over the statement forms the generated
body uses: the store is the module-scoped `instance` binding
(`Option.none` = unset / `undefined`), values are the constructed class
names.  The result is the final store and the returned value;
`Option.none` signals a statement form outside the supported fragment. -/

def evalAccessorStmts : StmtList → Option String → Option (Option String × Option String)
  | .nil, store => Option.some (store, Option.none)
  | .cons s rest, store =>
    match s with
    | .returnStmt (.ident "instance") => Option.some (store, store)
    | .ifStmt (.unaryE "!" (.ident "instance")) thenB =>
      (match store with
       | Option.none =>
         -- `!undefined` is true: run the branch, then continue
         (match evalAccessorStmts thenB Option.none with
          | Option.some (store1, Option.none) => evalAccessorStmts rest store1
          | Option.some (store1, Option.some v) => Option.some (store1, Option.some v)
          | Option.none => Option.none)
       | Option.some v =>
         -- `!<object>` is false: skip the branch
         evalAccessorStmts rest (Option.some v))
    | .exprStmt _ (.assignE (.ident "instance") (.newE (.ident cn) .nil)) =>
      evalAccessorStmts rest (Option.some cn)
    | _ => Option.none

/-! ## The export-property transform's folding pass (claims C8, C10) -/

/-- `renamePrivateFn` (export-property transform): strip the trailing
underscore from a private function name; when the name changes, rename
every `this.<name>` member reference in the tree to the new name.
Returns the new name and the updated tree. -/
def renamePrivateFn (root : List Stmt) (name : String) : String × List Stmt :=
  let newName := String.mk (stripTrailingUnderscore name.data)
  if newName ≠ name then (newName, root.map (renameS name newName))
  else (newName, root)

/-- The `@export`-insertion step: add `@export` to the comment block
unless already present (replacing the trailing whitespace run of the
block). -/
def addExportTag (c : List Char) : List Char :=
  if containsL c "@export".data then c
  else replaceTrailingWsL c "\n * @export\n ".data

/-- `prev.expression.left.property.name = <newName>` on the preceding
assignment statement's expression. -/
def setAssignLeftName : Expr → String → Expr
  | .assignE (.member o (.ident _) c) r, n => .assignE (.member o (.ident n) c) r
  | e, _ => e

/-- One folding step of the export-property transform, for the exportable
call statement at index `i` (`0 < i` required): pop the last comment
block of the preceding expression statement, add `@export` unless
present, strip the first `\n * @protected`, and when the result still
carries `@private`, rename the private member throughout the tree and
strip the first `\n * @private`; push the reworked comment back and
replace the call with the removal-marker comment block.  Shapes on which
the source itself would throw are left unchanged. -/
def exportFoldStep (prog : List Stmt) (i : Nat) : List Stmt :=
  match i, prog.get? i with
  | 0, _ => prog
  | j + 1, Option.some (.exprStmt cs _) =>
    (match prog.get? j with
     | Option.some (.exprStmt pcs pe) =>
       (match pcs.getLast? with
        | Option.some newComment0 =>
          let newComment1 := addExportTag newComment0
          let newComment2 := replaceFirstL newComment1 "\n * @protected".data []
          if containsL newComment2 "@private".data then
            match pe with
            | .assignE (.member lo (.ident lname) lc) rhs =>
              let r := renamePrivateFn prog lname
              let newComment3 := replaceFirstL newComment2 "\n * @private".data []
              let pe1 :=
                if r.1 = lname then Expr.assignE (.member lo (.ident lname) lc) rhs
                else renameE lname r.1 (.assignE (.member lo (.ident lname) lc) rhs)
              let pe2 := setAssignLeftName pe1 r.1
              let prog2 := r.2.set j (.exprStmt (pcs.dropLast ++ [newComment3]) pe2)
              prog2.set (j + 1) (.exprStmt cs (.commentBlockE "JSCS-REMOVE".data))
            | _ => prog
          else
            let prog2 := prog.set j (.exprStmt (pcs.dropLast ++ [newComment2]) pe)
            prog2.set (j + 1) (.exprStmt cs (.commentBlockE "JSCS-REMOVE".data))
        | Option.none => prog)
     | _ => prog)
  | _, _ => prog

/-- The indices of top-level exportable `goog.exportProperty` call
statements (the pre-collected `find` results whose parent's parent is the
Program node). -/
def exportableIndices (prog : List Stmt) : List Nat :=
  (List.range prog.length).filter fun i =>
    match prog.get? i with
    | Option.some (.exprStmt _ e) => isExportableCall e
    | _ => false

/-- The first pass of the export-property transform: fold each exportable
call into an `@export` annotation on its preceding commented statement. -/
def exportFoldPass (prog : List Stmt) : List Stmt :=
  (exportableIndices prog).foldl exportFoldStep prog

/-- The whole export-property transform: the folding pass, then the
fallback pass replacing every remaining `goog.exportProperty` call by its
assignment form. -/
def exportPropertyTransform (prog : List Stmt) : List Stmt :=
  (exportFoldPass prog).map gepFallbackS

/-- Whether any statement of the program still contains a
`goog.exportProperty` call. -/
def containsGEPProg (prog : List Stmt) : Bool :=
  prog.any containsGEPS

/-- Program-level well-formedness: every `goog.exportProperty` call
carries at least three arguments. -/
def wfGEPProg (prog : List Stmt) : Bool :=
  prog.all wfGEPS

/-! ## Claim C7: `<class>.base` calls become super invocations -/

/-- C7 (confirmed): for an invoke-base-implementation call whose second
argument is a literal member name, the constructor sentinel yields a bare
`super(...)` invocation and any other name a `super.<name>(...)` member
invocation; in both cases the first two arguments (self and member name)
are dropped and the remaining arguments are forwarded in order. -/
theorem c7_base_call_rewrite (a0 : Expr) (s : String) (rest : ExprList) :
    (s = "constructor" →
      replaceBaseWithSuper (.cons a0 (.cons (.lit s) rest))
        = Option.some (.callE .superE rest)) ∧
    (s ≠ "constructor" →
      replaceBaseWithSuper (.cons a0 (.cons (.lit s) rest))
        = Option.some (.callE (.member .superE (.ident s) false) rest)) := by
  constructor <;> intro h <;>
    simp [replaceBaseWithSuper, ExprList.get?, ExprList.dropN, h]

theorem c7_base_call_rewrite_witness :
    replaceBaseWithSuper
        (.cons .thisE (.cons (.lit "constructor") (.cons (.ident "x") .nil)))
      = Option.some (.callE .superE (.cons (.ident "x") .nil)) ∧
    replaceBaseWithSuper
        (.cons .thisE (.cons (.lit "render") (.cons (.ident "x") .nil)))
      = Option.some (.callE (.member .superE (.ident "render") false)
          (.cons (.ident "x") .nil)) :=
  ⟨(c7_base_call_rewrite .thisE "constructor" (.cons (.ident "x") .nil)).1 rfl,
   (c7_base_call_rewrite .thisE "render" (.cons (.ident "x") .nil)).2 (by decide)⟩

/-! ## Claim C6: `superClass_` call patterns -/

/-- C6 (confirmed): the pattern `<obj>.superClass_.<fn>.call(self, ...)`
is rewritten to `super.<fn>(...)` with the first argument dropped exactly
when the dotted path of `<obj>` equals the enclosing class's own
NamespacePath; a different path produces one non-fatal warning and no
modification, and the pass keeps processing every further occurrence. -/
theorem c6_superclass_rewrite (modPath : NsPath) (obj : Expr) (fnName : String)
    (selfArg : Expr) (rest : ExprList) :
    (memberExprToString obj = Option.some modPath →
      replaceSuperclassWithSuper modPath obj fnName (.cons selfArg rest)
        = (Option.some (.callE (.member .superE (.ident fnName) false) rest), [])) ∧
    (memberExprToString obj ≠ Option.some modPath →
      replaceSuperclassWithSuper modPath obj fnName (.cons selfArg rest)
        = (Option.none, [.superclassOtherClass modPath (memberExprToString obj)])) ∧
    (∀ occs : List (Expr × String × ExprList),
      (replaceSuperclassPass modPath occs).1.length = occs.length) := by
  refine ⟨?_, ?_, ?_⟩
  · intro h; simp [replaceSuperclassWithSuper, h, ExprList.dropN]
  · intro h; simp [replaceSuperclassWithSuper, h]
  · intro occs
    induction occs with
    | nil => rfl
    | cons o t ih =>
      obtain ⟨a, b, c⟩ := o
      simp [replaceSuperclassPass, ih]

theorem c6_superclass_rewrite_witness :
    replaceSuperclassWithSuper ⟨"app", ["Widget"]⟩
        (.member (.ident "app") (.ident "Widget") false) "render"
        (.cons .thisE (.cons (.ident "x") .nil))
      = (Option.some (.callE (.member .superE (.ident "render") false)
          (.cons (.ident "x") .nil)), []) ∧
    replaceSuperclassWithSuper ⟨"app", ["Widget"]⟩
        (.member (.ident "app") (.ident "Other") false) "render"
        (.cons .thisE (.cons (.ident "x") .nil))
      = (Option.none,
         [.superclassOtherClass ⟨"app", ["Widget"]⟩ (Option.some ⟨"app", ["Other"]⟩)]) :=
  ⟨(c6_superclass_rewrite ⟨"app", ["Widget"]⟩
      (.member (.ident "app") (.ident "Widget") false) "render" .thisE
      (.cons (.ident "x") .nil)).1 (by decide),
   by
    have h := (c6_superclass_rewrite ⟨"app", ["Widget"]⟩
      (.member (.ident "app") (.ident "Other") false) "render" .thisE
      (.cons (.ident "x") .nil)).2.1 (by decide)
    rw [h]
    decide⟩

/-! ## Claim C2: the singleton rewrite -/

/-- Setting the comments of the freshly pushed last method reaches exactly
that method. -/
theorem setLastComments_append (k : String) (st : Bool) (n : String)
    (v : Expr) (cs0 cs : List (List Char)) :
    (l : StmtList) →
      setLastComments (l.append (.cons (.methodDef cs0 k st n v) .nil)) cs
        = l.append (.cons (.methodDef cs k st n v) .nil)
  | .nil => rfl
  | .cons s t => by
    have ih := setLastComments_append k st n v cs0 cs t
    have hne : ∃ h1 tl, StmtList.append t (.cons (.methodDef cs0 k st n v) .nil)
        = StmtList.cons h1 tl := by
      cases t <;> exact ⟨_, _, rfl⟩
    obtain ⟨h1, tl, heq⟩ := hne
    simp only [StmtList.append, heq, setLastComments]
    rw [← heq, ih]

/-- C2 (confirmed): when the registry holds a class for the singleton
declaration's NamespacePath, the declaration is replaced by a
module-scoped `let instance;` binding that is initially unset, plus a
static `getInstance` accessor pushed onto the class whose body constructs
the instance on first access and returns the stored instance, with
documentation comments synthesized for both the binding and the
accessor.  The behavioural conjuncts run the generated accessor body in
the one-variable interpreter: from the unset store it constructs and
returns the new instance; from a set store it returns the stored value
untouched. -/
theorem c2_singleton_rewrite (lookup : Option ClassNode) (c : ClassNode)
    (h : lookup = Option.some c) :
    moveSingletonToClass lookup
      = Option.some
          (Stmt.varDecl [singletonInstanceComment c.name] "let" "instance" OExpr.none,
           { c with body := c.body.append (.cons (Stmt.methodDef [getInstanceComment c.name]
               "method" true "getInstance" (.fnExpr [] (getInstanceBody c.name))) .nil) }) ∧
    evalAccessorStmts (getInstanceBody c.name) Option.none
      = Option.some (Option.some c.name, Option.some c.name) ∧
    (∀ v, evalAccessorStmts (getInstanceBody c.name) (Option.some v)
      = Option.some (Option.some v, Option.some v)) := by
  subst h
  refine ⟨?_, rfl, fun v => rfl⟩
  simp [moveSingletonToClass, addMethodToClass, setLastComments_append]

theorem c2_singleton_rewrite_witness :
    moveSingletonToClass (Option.some ⟨[], "Widget", OExpr.none, .nil⟩)
      = Option.some
          (Stmt.varDecl [singletonInstanceComment "Widget"] "let" "instance" OExpr.none,
           ⟨[], "Widget", OExpr.none,
            .cons (Stmt.methodDef [getInstanceComment "Widget"] "method" true "getInstance"
              (.fnExpr [] (getInstanceBody "Widget"))) .nil⟩) ∧
    evalAccessorStmts (getInstanceBody "Widget") Option.none
      = Option.some (Option.some "Widget", Option.some "Widget") :=
  ⟨((c2_singleton_rewrite (Option.some ⟨[], "Widget", OExpr.none, .nil⟩)
      ⟨[], "Widget", OExpr.none, .nil⟩ rfl).1),
   ((c2_singleton_rewrite (Option.some ⟨[], "Widget", OExpr.none, .nil⟩)
      ⟨[], "Widget", OExpr.none, .nil⟩ rfl).2.1)⟩

/-! ## Claim C4: reassignment-driven binding kind -/

/-- C4 (confirmed): converting a private static-property assignment into a
module-scoped binding chooses the binding kind by reassignment detection:
exactly one assignment site to `<modPath>.<prop>` in the program yields an
immutable `const` binding, two or more yield a mutable `let` binding. -/
theorem c4_reassignment_kind (root : List Stmt) (i : Nat) (modPath : NsPath)
    (cs : List (List Char)) (o : Expr) (p : String) (mc : Bool) (rhs : Expr)
    (hstmt : root.get? i = Option.some (.exprStmt cs (.assignE (.member o (.ident p) mc) rhs)))
    (hpriv : isPrivateComments cs = true) :
    (countAssignProg (dottedExpr modPath) p root = 1 →
      ∃ ncs init, (convertNamespaceExpression root i modPath).get? i
        = Option.some (.varDecl ncs "const" p init)) ∧
    (2 ≤ countAssignProg (dottedExpr modPath) p root →
      ∃ ncs init, (convertNamespaceExpression root i modPath).get? i
        = Option.some (.varDecl ncs "let" p init)) := by
  have hlt : i < root.length := by
    by_contra hge
    rw [List.get?_eq_none.2 (Nat.le_of_not_lt hge)] at hstmt
    exact Option.noConfusion hstmt
  constructor <;> intro hcount
  · have hr : isReassigned root modPath p = false := by
      simp [isReassigned, hcount]
    have hres : (convertNamespaceExpression root i modPath).get? i
        = Option.some (.varDecl
            (match cs.getLast? with
             | Option.some cl => [replaceFirstL cl "\n * @private".data []]
             | Option.none => [])
            "const" p
            (OExpr.some (replaceRefE (dottedExpr (modPath.child p)) (.ident p) rhs))) := by
      simp only [convertNamespaceExpression, hstmt, hpriv, hr, Bool.not_false, Bool.and_true,
        if_true, replaceRefProg]
      rw [List.get?_map, List.get?_set_eq_of_lt _ hlt]
      simp [replaceRefS, replaceRefO]
    exact ⟨_, _, hres⟩
  · have hr : isReassigned root modPath p = true := by
      simp only [isReassigned, decide_eq_true_eq]
      omega
    have hres : (convertNamespaceExpression root i modPath).get? i
        = Option.some (.varDecl
            (match cs.getLast? with
             | Option.some cl => [replaceFirstL cl "\n * @private".data []]
             | Option.none => [])
            "let" p
            (OExpr.some (replaceRefE (dottedExpr (modPath.child p)) (.ident p) rhs))) := by
      simp only [convertNamespaceExpression, hstmt, hpriv, hr, Bool.not_true, Bool.and_false,
        Bool.false_eq_true, if_false, if_true, replaceRefProg]
      rw [List.get?_map, List.get?_set_eq_of_lt _ hlt]
      simp [replaceRefS, replaceRefO]
    exact ⟨_, _, hres⟩

theorem c4_reassignment_kind_witness :
    (∃ ncs init,
      (convertNamespaceExpression
        [Stmt.exprStmt ["*\n * @private\n ".data]
          (.assignE (.member (.member (.ident "ns") (.ident "Cls") false) (.ident "x") false)
            (.lit "v"))]
        0 ⟨"ns", ["Cls"]⟩).get? 0 = Option.some (.varDecl ncs "const" "x" init)) ∧
    (∃ ncs init,
      (convertNamespaceExpression
        [Stmt.exprStmt ["*\n * @private\n ".data]
          (.assignE (.member (.member (.ident "ns") (.ident "Cls") false) (.ident "x") false)
            (.lit "v")),
         Stmt.exprStmt []
          (.assignE (.member (.member (.ident "ns") (.ident "Cls") false) (.ident "x") false)
            (.lit "w"))]
        0 ⟨"ns", ["Cls"]⟩).get? 0 = Option.some (.varDecl ncs "let" "x" init)) :=
  ⟨(c4_reassignment_kind
      [Stmt.exprStmt ["*\n * @private\n ".data]
        (.assignE (.member (.member (.ident "ns") (.ident "Cls") false) (.ident "x") false)
          (.lit "v"))]
      0 ⟨"ns", ["Cls"]⟩ ["*\n * @private\n ".data]
      (.member (.ident "ns") (.ident "Cls") false) "x" false (.lit "v")
      rfl (by decide)).1 (by decide),
   (c4_reassignment_kind
      [Stmt.exprStmt ["*\n * @private\n ".data]
        (.assignE (.member (.member (.ident "ns") (.ident "Cls") false) (.ident "x") false)
          (.lit "v")),
       Stmt.exprStmt []
        (.assignE (.member (.member (.ident "ns") (.ident "Cls") false) (.ident "x") false)
          (.lit "w"))]
      0 ⟨"ns", ["Cls"]⟩ ["*\n * @private\n ".data]
      (.member (.ident "ns") (.ident "Cls") false) "x" false (.lit "v")
      rfl (by decide)).2 (by decide)⟩

/-! ## Claim C9: equality-helper conversions -/

/-- C9 (confirmed; the shared utility is modelled from the spec, its
configurations from the source callers): each helper conversion replaces a
call with the fixed callee identity by a binary comparison of the call's
argument against the fixed right-hand literal — `undefined` for the
definedness helper, `null` for the defined-and-not-null helper — using the
stated operator for a plain call and the negated operator when the call is
logically negated by an enclosing unary not. -/
theorem c9_equality_helper_conversion (a : Expr) :
    isdefTransform (.callE (.member (.ident "goog") (.ident "isDef") false) (.cons a .nil))
      = .binaryE "!==" (isdefTransform a) (.ident "undefined") ∧
    isdefTransform (.unaryE "!"
        (.callE (.member (.ident "goog") (.ident "isDef") false) (.cons a .nil)))
      = .binaryE "===" (isdefTransform a) (.ident "undefined") ∧
    isdefandnotnullTransform
        (.callE (.member (.ident "goog") (.ident "isDefAndNotNull") false) (.cons a .nil))
      = .binaryE "!=" (isdefandnotnullTransform a) (.ident "null") ∧
    isdefandnotnullTransform (.unaryE "!"
        (.callE (.member (.ident "goog") (.ident "isDefAndNotNull") false) (.cons a .nil)))
      = .binaryE "==" (isdefandnotnullTransform a) (.ident "null") := by
  refine ⟨?_, ?_, ?_, ?_⟩ <;> simp [isdefTransform, isdefandnotnullTransform, callToBinaryE]

/-! ## Claim C1: registry-absence behaviour of the class passes -/

/-- C1 as stated is false at this input: with no registered class for
`ns.Cls`, converting the private static property `ns.Cls.x = 'v'` does not
leave the matched node untouched — the assignment statement is replaced in
place by a `const` binding. -/
theorem c1_registry_absence_counterexample :
    convertPrivateClassPropertyToConst Option.none
        [Stmt.exprStmt ["*\n * @private\n ".data]
          (.assignE (.member (.member (.ident "ns") (.ident "Cls") false) (.ident "x") false)
            (.lit "v"))]
        0 ⟨"ns", ["Cls"]⟩
      ≠ [Stmt.exprStmt ["*\n * @private\n ".data]
          (.assignE (.member (.member (.ident "ns") (.ident "Cls") false) (.ident "x") false)
            (.lit "v"))] := by
  decide

/-- C1 (amended): a registry lookup that finds no entry never makes the
method-addition, inheritance, singleton, or static-accessor passes touch
anything (no method is created, the matched node is kept, the program is
unchanged); the private static-property conversion, however, does not
leave its node untouched: it still replaces the assignment in place with
the `const` binding and rewrites the remaining qualified references; and
the function-valued static-property migration dereferences the absent
method and fails. -/
theorem c1_registry_absence_amended :
    (∀ (n : String) (v : Expr) (st : Bool),
      addMethodToClass Option.none n v st = (Option.none, Option.none)) ∧
    (∀ args, moveInheritsToClass Option.none args = (Option.none, false)) ∧
    moveSingletonToClass Option.none = Option.none ∧
    (∀ root i, addStaticGetToClass Option.none root i = (root, Option.none)) ∧
    (∀ root i modPath cs o p mc rhs,
      root.get? i = Option.some (.exprStmt cs (.assignE (.member o (.ident p) mc) rhs)) →
      convertPrivateClassPropertyToConst Option.none root i modPath
        = replaceRefProg (dottedExpr (modPath.child p)) (.ident p)
            (root.set i (.varDecl
              (match cs.getLast? with
               | Option.some cl => [filterPrivConst cl]
               | Option.none => []) "const" p (OExpr.some rhs)))) ∧
    (∀ root i modPath cs o p mc ps b,
      root.get? i = Option.some (.exprStmt cs (.assignE (.member o (.ident p) mc) (.fnExpr ps b))) →
      ∃ msg, convertStaticProperty Option.none root i modPath = Except.error msg) := by
  refine ⟨fun n v st => rfl, fun args => rfl, rfl, fun root i => rfl, ?_, ?_⟩
  · intro root i modPath cs o p mc rhs hstmt
    rw [List.get?_eq_getElem?] at hstmt
    simp [convertPrivateClassPropertyToConst, hstmt]
  · intro root i modPath cs o p mc ps b hstmt
    rw [List.get?_eq_getElem?] at hstmt
    refine ⟨"TypeError: cannot set comments of undefined", ?_⟩
    simp [convertStaticProperty, hstmt, addMethodToClass]

theorem c1_registry_absence_amended_witness :
    moveInheritsToClass Option.none
        (.cons (.member (.ident "ns") (.ident "Cls") false) (.cons (.ident "Base") .nil))
      = (Option.none, false) ∧
    convertPrivateClassPropertyToConst Option.none
        [Stmt.exprStmt ["*\n * @private\n ".data]
          (.assignE (.member (.member (.ident "ns") (.ident "Cls") false) (.ident "x") false)
            (.lit "v"))]
        0 ⟨"ns", ["Cls"]⟩
      = replaceRefProg (dottedExpr (NsPath.child ⟨"ns", ["Cls"]⟩ "x")) (.ident "x")
          ([Stmt.exprStmt ["*\n * @private\n ".data]
            (.assignE (.member (.member (.ident "ns") (.ident "Cls") false) (.ident "x") false)
              (.lit "v"))].set 0
            (.varDecl [filterPrivConst "*\n * @private\n ".data] "const" "x"
              (OExpr.some (.lit "v")))) :=
  ⟨c1_registry_absence_amended.2.1
    (.cons (.member (.ident "ns") (.ident "Cls") false) (.cons (.ident "Base") .nil)),
   c1_registry_absence_amended.2.2.2.2.1
    [Stmt.exprStmt ["*\n * @private\n ".data]
      (.assignE (.member (.member (.ident "ns") (.ident "Cls") false) (.ident "x") false)
        (.lit "v"))]
    0 ⟨"ns", ["Cls"]⟩ ["*\n * @private\n ".data]
    (.member (.ident "ns") (.ident "Cls") false) "x" false (.lit "v") rfl⟩

/-! ## Claim C3: the module-declaration rewrite -/

/-- A module declaration built by the pass is never itself a provide
call. -/
theorem isProvideStmt_moduleStmtOf (q : Stmt) : isProvideStmt (moduleStmtOf q) = false := by
  simp [moduleStmtOf, isProvideStmt, googModuleCallee, googProvideCallee]

/-- The legacy marker is not a provide call. -/
theorem isProvideStmt_legacy : isProvideStmt legacyNamespaceStmt = false := by decide

/-- Removing a statement that occurs in no element of the prefix skips the
prefix. -/
theorem removeFirstStmt_append_of_ne (p : Stmt) (rest : List Stmt) :
    ∀ pre : List Stmt, (∀ x ∈ pre, x ≠ p) →
      removeFirstStmt p (pre ++ rest) = pre ++ removeFirstStmt p rest := by
  intro pre
  induction pre with
  | nil => intro _; rfl
  | cons x t ih =>
    intro h
    have hx : x ≠ p := h x (List.mem_cons_self x t)
    simp only [List.cons_append, removeFirstStmt, if_neg hx]
    exact congrArg (x :: ·) (ih (fun y hy => h y (List.mem_cons_of_mem x hy)))

/-- The structure of the provide-rewriting loop after the first iteration:
with a nonzero index, each remaining provide is removed from the body
part, and its module declaration is stacked in reverse order in front of
the accumulated prefix. -/
theorem rpwmLoop_structure (ps : List Stmt) :
    ∀ (idx : Nat) (body pre : List Stmt),
      (∀ x ∈ pre, isProvideStmt x = false) →
      (∀ q ∈ ps, isProvideStmt q = true) →
      idx ≠ 0 →
      rpwmLoop (pre ++ body) idx ps
        = ((ps.map moduleStmtOf).reverse ++ pre
             ++ ps.foldl (fun b q => removeFirstStmt q b) body,
           ps.map provideNameOf) := by
  induction ps with
  | nil => intro idx body pre _ _ _; simp [rpwmLoop]
  | cons q t ih =>
    intro idx body pre hpre hps hidx
    have hq : isProvideStmt q = true := hps q (List.mem_cons_self q t)
    have hstep : removeFirstStmt q (pre ++ body) = pre ++ removeFirstStmt q body := by
      refine removeFirstStmt_append_of_ne q body pre (fun x hx hxq => ?_)
      have := hpre x hx
      rw [hxq, hq] at this
      exact Bool.noConfusion this
    simp only [rpwmLoop, hstep, if_neg hidx]
    have hre : moduleStmtOf q :: (pre ++ removeFirstStmt q body)
        = (moduleStmtOf q :: pre) ++ removeFirstStmt q body := rfl
    rw [hre, ih (idx + 1) (removeFirstStmt q body) (moduleStmtOf q :: pre)
      (by
        intro x hx
        rcases List.mem_cons.1 hx with h | h
        · rw [h]; exact isProvideStmt_moduleStmtOf q
        · exact hpre x h)
      (fun r hr => hps r (List.mem_cons_of_mem q hr))
      (Nat.succ_ne_zero idx)]
    simp [List.append_assoc]

/-- C3 (amended): every namespace export call is turned into a module
declaration carrying the same arguments; the module declarations are
unshifted onto the start of the program (so they end up in reverse source
order), with the legacy-compatibility marker sitting immediately AFTER the
first export call's module declaration; the returned module-name list is
in source order. -/
theorem c3_module_rewrite_amended (body : List Stmt) (p0 : Stmt) (ps : List Stmt)
    (hfilter : body.filter isProvideStmt = p0 :: ps) :
    replaceProvidesWithModules body
      = (((p0 :: ps).map moduleStmtOf).reverse
           ++ legacyNamespaceStmt :: (p0 :: ps).foldl (fun b q => removeFirstStmt q b) body,
         (p0 :: ps).map provideNameOf) ∧
    (replaceProvidesWithModules body).1.get? ps.length = Option.some (moduleStmtOf p0) ∧
    (replaceProvidesWithModules body).1.get? (ps.length + 1) = Option.some legacyNamespaceStmt := by
  have hps : ∀ q ∈ p0 :: ps, isProvideStmt q = true := by
    intro q hq
    rw [← hfilter] at hq
    exact List.of_mem_filter hq
  have hp0 : isProvideStmt p0 = true := hps p0 (List.mem_cons_self p0 ps)
  have hmain : replaceProvidesWithModules body
      = (((p0 :: ps).map moduleStmtOf).reverse
           ++ legacyNamespaceStmt :: (p0 :: ps).foldl (fun b q => removeFirstStmt q b) body,
         (p0 :: ps).map provideNameOf) := by
    have hloop := rpwmLoop_structure ps 1 (removeFirstStmt p0 body)
      (moduleStmtOf p0 :: legacyNamespaceStmt :: [])
      (by
        intro x hx
        rcases List.mem_cons.1 hx with h | h
        · rw [h]; exact isProvideStmt_moduleStmtOf p0
        · rcases List.mem_cons.1 h with h2 | h2
          · rw [h2]; exact isProvideStmt_legacy
          · exact absurd h2 (List.not_mem_nil x))
      (fun r hr => hps r (List.mem_cons_of_mem p0 hr))
      Nat.one_ne_zero
    have h0 : rpwmLoop body 0 (p0 :: ps)
        = ((rpwmLoop ((moduleStmtOf p0 :: legacyNamespaceStmt :: []) ++ removeFirstStmt p0 body)
              1 ps).1,
           provideNameOf p0 ::
            (rpwmLoop ((moduleStmtOf p0 :: legacyNamespaceStmt :: []) ++ removeFirstStmt p0 body)
              1 ps).2) := by
      simp [rpwmLoop]
    unfold replaceProvidesWithModules
    rw [hfilter, h0, hloop]
    simp [List.append_assoc]
  refine ⟨hmain, ?_, ?_⟩
  · rw [hmain]
    have hlen : ((p0 :: ps).map moduleStmtOf).reverse.length = ps.length + 1 := by simp
    rw [List.get?_append (by omega)]
    rw [List.get?_reverse (by simp)]
    simp
  · rw [hmain]
    have hlen : ((p0 :: ps).map moduleStmtOf).reverse.length = ps.length + 1 := by simp
    rw [List.get?_append_right (by omega)]
    simp [hlen]

/-- C3 as stated is false at this input: for the single-provide program
`goog.provide('test.Object')`, the rewritten program never has the
legacy-compatibility marker immediately BEFORE the module declaration —
the marker is placed immediately after it. -/
theorem c3_legacy_marker_counterexample :
    ¬ ∃ i : Nat,
      (replaceProvidesWithModules
          [Stmt.exprStmt [] (.callE googProvideCallee (.cons (.lit "test.Object") .nil))]).1.get? i
        = Option.some legacyNamespaceStmt ∧
      (replaceProvidesWithModules
          [Stmt.exprStmt [] (.callE googProvideCallee (.cons (.lit "test.Object") .nil))]).1.get?
          (i + 1)
        = Option.some (Stmt.exprStmt []
            (.callE googModuleCallee (.cons (.lit "test.Object") .nil))) := by
  rintro ⟨i, h1, h2⟩
  have hout : (replaceProvidesWithModules
      [Stmt.exprStmt [] (.callE googProvideCallee (.cons (.lit "test.Object") .nil))]).1
      = [Stmt.exprStmt [] (.callE googModuleCallee (.cons (.lit "test.Object") .nil)),
         legacyNamespaceStmt] := by decide
  rw [hout] at h1 h2
  match i with
  | 0 => exact absurd h1 (by decide)
  | 1 => exact absurd h2 (by decide)
  | n + 2 => simp [List.get?] at h1

theorem c3_module_rewrite_amended_witness :
    replaceProvidesWithModules
        [Stmt.exprStmt [] (.callE googProvideCallee (.cons (.lit "test.Object") .nil))]
      = ([Stmt.exprStmt [] (.callE googModuleCallee (.cons (.lit "test.Object") .nil)),
          legacyNamespaceStmt],
         [Option.some "test.Object"]) ∧
    (replaceProvidesWithModules
        [Stmt.exprStmt [] (.callE googProvideCallee (.cons (.lit "test.Object") .nil))]).1.get? 0
      = Option.some (moduleStmtOf
          (Stmt.exprStmt [] (.callE googProvideCallee (.cons (.lit "test.Object") .nil)))) := by
  have h := c3_module_rewrite_amended
    [Stmt.exprStmt [] (.callE googProvideCallee (.cons (.lit "test.Object") .nil))]
    (Stmt.exprStmt [] (.callE googProvideCallee (.cons (.lit "test.Object") .nil)))
    [] (by decide)
  refine ⟨?_, ?_⟩
  · rw [h.1]; decide
  · exact h.2.1

/-! ## Claim C8: privacy rename consistency on export -/

set_option maxHeartbeats 1000000 in
/-- Renaming keeps a member expression a member expression (with the same
computed flag). -/
theorem renameE_member_is_member (oldN newN : String) (o p : Expr) (c : Bool) :
    ∃ o' p', renameE oldN newN (.member o p c) = .member o' p' c := by
  cases o <;> cases p <;>
    first
    | exact ⟨_, _, rfl⟩
    | (simp only [renameE]; split <;> exact ⟨_, _, rfl⟩)

set_option maxHeartbeats 1000000 in
mutual

/-- After renaming, no `this.<oldN>` reference remains in an expression. -/
theorem renameE_no_ref (oldN newN : String) (h : oldN ≠ newN) :
    (e : Expr) → hasThisRefE oldN (renameE oldN newN e) = false
  | .ident n => by simp [renameE, hasThisRefE]
  | .lit v => by simp [renameE, hasThisRefE]
  | .thisE => by simp [renameE, hasThisRefE]
  | .superE => by simp [renameE, hasThisRefE]
  | .commentBlockE t => by simp [renameE, hasThisRefE]
  | .member o p c => by
    have ho := renameE_no_ref oldN newN h o
    have hp := renameE_no_ref oldN newN h p
    have h2 : newN ≠ oldN := Ne.symm h
    cases o with
    | thisE =>
      cases p with
      | member o2 p2 c2 =>
        obtain ⟨o', p', heq⟩ := renameE_member_is_member oldN newN o2 p2 c2
        show hasThisRefE oldN
            (.member .thisE (renameE oldN newN (.member o2 p2 c2)) c) = false
        rw [heq]
        rw [heq] at hp
        simp_all [hasThisRefE]
      | ident n =>
        simp only [renameE]
        split <;> simp_all [hasThisRefE]
      | _ => simp_all [renameE, hasThisRefE]
    | member o2 p2 c2 =>
      obtain ⟨o', p', heq⟩ := renameE_member_is_member oldN newN o2 p2 c2
      show hasThisRefE oldN
          (.member (renameE oldN newN (.member o2 p2 c2)) (renameE oldN newN p) c) = false
      rw [heq]
      rw [heq] at ho
      simp_all [hasThisRefE]
    | ident n => simp_all [renameE, hasThisRefE]
    | lit v => simp_all [renameE, hasThisRefE]
    | superE => simp_all [renameE, hasThisRefE]
    | commentBlockE t => simp_all [renameE, hasThisRefE]
    | callE f a => simp_all [renameE, hasThisRefE]
    | assignE l r => simp_all [renameE, hasThisRefE]
    | unaryE op a => simp_all [renameE, hasThisRefE]
    | binaryE op l r => simp_all [renameE, hasThisRefE]
    | newE f a => simp_all [renameE, hasThisRefE]
    | fnExpr ps b => simp_all [renameE, hasThisRefE]
  | .callE f a => by
    have hf := renameE_no_ref oldN newN h f
    have ha := renameEL_no_ref oldN newN h a
    simp_all [renameE, hasThisRefE]
  | .assignE l r => by
    have hl := renameE_no_ref oldN newN h l
    have hr := renameE_no_ref oldN newN h r
    simp_all [renameE, hasThisRefE]
  | .unaryE op a => by
    have ha := renameE_no_ref oldN newN h a
    simp_all [renameE, hasThisRefE]
  | .binaryE op l r => by
    have hl := renameE_no_ref oldN newN h l
    have hr := renameE_no_ref oldN newN h r
    simp_all [renameE, hasThisRefE]
  | .newE f a => by
    have hf := renameE_no_ref oldN newN h f
    have ha := renameEL_no_ref oldN newN h a
    simp_all [renameE, hasThisRefE]
  | .fnExpr ps b => by
    have hb := renameSL_no_ref oldN newN h b
    simp_all [renameE, hasThisRefE]

theorem renameEL_no_ref (oldN newN : String) (h : oldN ≠ newN) :
    (l : ExprList) → hasThisRefEL oldN (renameEL oldN newN l) = false
  | .nil => by simp [renameEL, hasThisRefEL]
  | .cons e t => by
    have he := renameE_no_ref oldN newN h e
    have ht := renameEL_no_ref oldN newN h t
    simp_all [renameEL, hasThisRefEL]

theorem renameO_no_ref (oldN newN : String) (h : oldN ≠ newN) :
    (o : OExpr) → hasThisRefO oldN (renameO oldN newN o) = false
  | .none => by simp [renameO, hasThisRefO]
  | .some e => by
    have he := renameE_no_ref oldN newN h e
    simp_all [renameO, hasThisRefO]

theorem renameS_no_ref (oldN newN : String) (h : oldN ≠ newN) :
    (s : Stmt) → hasThisRefS oldN (renameS oldN newN s) = false
  | .exprStmt cs e => by
    have he := renameE_no_ref oldN newN h e
    simp_all [renameS, hasThisRefS]
  | .varDecl cs k n i => by
    have hi := renameO_no_ref oldN newN h i
    simp_all [renameS, hasThisRefS]
  | .classDecl cs n sc b => by
    have hsc := renameO_no_ref oldN newN h sc
    have hb := renameSL_no_ref oldN newN h b
    simp_all [renameS, hasThisRefS]
  | .methodDef cs k st n v => by
    have hv := renameE_no_ref oldN newN h v
    simp_all [renameS, hasThisRefS]
  | .returnStmt e => by
    have he := renameE_no_ref oldN newN h e
    simp_all [renameS, hasThisRefS]
  | .ifStmt t c => by
    have ht := renameE_no_ref oldN newN h t
    have hc := renameSL_no_ref oldN newN h c
    simp_all [renameS, hasThisRefS]

theorem renameSL_no_ref (oldN newN : String) (h : oldN ≠ newN) :
    (l : StmtList) → hasThisRefSL oldN (renameSL oldN newN l) = false
  | .nil => by simp [renameSL, hasThisRefSL]
  | .cons s t => by
    have hs := renameS_no_ref oldN newN h s
    have ht := renameSL_no_ref oldN newN h t
    simp_all [renameSL, hasThisRefSL]

end

/-- `containsL` succeeds immediately on a prefix match. -/
theorem containsL_true_of_isPrefixOf {s pat : List Char} (h : pat.isPrefixOf s = true) :
    containsL s pat = true := by
  cases s <;> simp [containsL, h]

/-- `replaceFirstL` replaces immediately on a prefix match. -/
theorem replaceFirstL_of_isPrefixOf {s pat : List Char} (repl : List Char)
    (h : pat.isPrefixOf s = true) :
    replaceFirstL s pat repl = repl ++ s.drop pat.length := by
  cases s <;> simp [replaceFirstL, h]

/-- A pattern beginning with `@` cannot start inside an `@`-free prefix,
so searching skips that prefix. -/
theorem containsL_append_atFree (pat : List Char) (hp : pat.head? = Option.some '@') :
    ∀ (a t : List Char), (∀ c ∈ a, c ≠ '@') → containsL (a ++ t) pat = containsL t pat := by
  intro a
  induction a with
  | nil => intro t _; rfl
  | cons c a' ih =>
    intro t h
    have hc : c ≠ '@' := h c (List.mem_cons_self c a')
    have hnp : pat.isPrefixOf (c :: (a' ++ t)) = false := by
      cases hpat : pat with
      | nil => rw [hpat] at hp; exact absurd hp (by simp)
      | cons p0 pr =>
        rw [hpat] at hp
        simp only [List.head?_cons, Option.some.injEq] at hp
        subst hp
        simp only [List.isPrefixOf_cons₂]
        simp [Ne.symm hc]
    simp only [List.cons_append, containsL, hnp]
    simp only [Bool.false_eq_true, if_false]
    exact ih t (fun y hy => h y (List.mem_cons_of_mem c hy))

/-- A pattern occurs in any list spelling it out. -/
theorem containsL_append_self (pat : List Char) :
    ∀ (u v : List Char), containsL (u ++ (pat ++ v)) pat = true := by
  intro u
  induction u with
  | nil =>
    intro v
    have hpre : pat.isPrefixOf (pat ++ v) = true :=
      List.isPrefixOf_iff_prefix.2 (List.prefix_append pat v)
    simpa using containsL_true_of_isPrefixOf hpre
  | cons c u' ih =>
    intro v
    by_cases hc : pat.isPrefixOf (c :: (u' ++ (pat ++ v))) = true
    · simpa using containsL_true_of_isPrefixOf (s := (c :: u') ++ (pat ++ v)) (by simpa using hc)
    · simp only [List.cons_append, containsL]
      rw [if_neg (by simpa using hc)]
      exact ih v

/-- Replacing a pattern whose unique leading `@` sits at offset `j` at a
boundary after an `@`-free prefix removes exactly the explicit occurrence. -/
theorem replaceFirstL_boundary (pat : List Char) (j : Nat) (hj : j < pat.length)
    (hsome : pat.get? j = Option.some '@')
    (hlow : ∀ k, k < j → pat.get? k ≠ Option.some '@') :
    ∀ (a b repl : List Char), (∀ c ∈ a, c ≠ '@') →
      replaceFirstL (a ++ (pat ++ b)) pat repl = a ++ (repl ++ b) := by
  intro a
  induction a with
  | nil =>
    intro b repl _
    have hpre : pat.isPrefixOf (pat ++ b) = true :=
      List.isPrefixOf_iff_prefix.2 (List.prefix_append pat b)
    rw [List.nil_append, replaceFirstL_of_isPrefixOf repl hpre, List.drop_left]
    rfl
  | cons c a' ih =>
    intro b repl h
    have hnp : pat.isPrefixOf (c :: (a' ++ (pat ++ b))) = false := by
      cases hx : pat.isPrefixOf (c :: (a' ++ (pat ++ b))) with
      | false => rfl
      | true =>
        exfalso
        have hpre : pat <+: (c :: a') ++ (pat ++ b) := by
          rw [← List.isPrefixOf_iff_prefix]
          simpa using hx
        obtain ⟨t, ht⟩ := hpre
        have hs : ((c :: a') ++ (pat ++ b)).get? j = Option.some '@' := by
          rw [← ht, List.get?_append hj]
          exact hsome
        by_cases hlt : j < (c :: a').length
        · rw [List.get?_append hlt] at hs
          have hmem : '@' ∈ c :: a' := List.get?_mem hs
          rcases List.mem_cons.1 hmem with hm | hm
          · exact h c (List.mem_cons_self c a') hm.symm
          · exact h '@' (List.mem_cons_of_mem c hm) rfl
        · have hge : (c :: a').length ≤ j := Nat.le_of_not_lt hlt
          rw [List.get?_append_right hge] at hs
          have hjd : j - (c :: a').length < pat.length := by
            have : j - (c :: a').length ≤ j := Nat.sub_le _ _
            omega
          rw [List.get?_append hjd] at hs
          have hjlt : j - (c :: a').length < j := by
            have : 0 < (c :: a').length := by simp
            omega
          exact hlow _ hjlt hs
    simp only [List.cons_append, replaceFirstL, hnp]
    simp only [Bool.false_eq_true, if_false]
    exact congrArg (c :: ·) (ih b repl (fun y hy => h y (List.mem_cons_of_mem c hy)))

/-- Characters surviving the right trim come from the original list. -/
theorem mem_trimRightWsL {c : Char} {z : List Char} (h : c ∈ trimRightWsL z) : c ∈ z := by
  unfold trimRightWsL at h
  rw [List.mem_reverse] at h
  exact List.mem_reverse.1 ((List.dropWhile_sublist _).subset h)

/-- Trimming trailing whitespace of `a ++ z` stays inside `z` when `z`
contains a non-whitespace character. -/
theorem trimRightWsL_append (a z : List Char) (hz : ∃ c ∈ z, isJsWs c = false) :
    trimRightWsL (a ++ z) = a ++ trimRightWsL z := by
  unfold trimRightWsL
  rw [List.reverse_append, List.dropWhile_append]
  have hne : (z.reverse.dropWhile isJsWs).isEmpty = false := by
    obtain ⟨c, hc, hcw⟩ := hz
    rw [List.isEmpty_eq_false_iff_exists_mem]
    by_contra hcon
    push_neg at hcon
    have hall : z.reverse.dropWhile isJsWs = [] := List.eq_nil_iff_forall_not_mem.2 hcon
    have := List.dropWhile_eq_nil_iff.1 hall c (List.mem_reverse.2 hc)
    rw [hcw] at this
    exact Bool.noConfusion this
  rw [if_neg (by simp [hne]), List.reverse_append, List.reverse_reverse]

/-- `replace(/\s+$/, repl)` on a string ending in whitespace. -/
theorem replaceTrailingWsL_eq (s repl : List Char) (c : Char)
    (hc : s.reverse.head? = Option.some c) (hw : isJsWs c = true) :
    replaceTrailingWsL s repl = trimRightWsL s ++ repl := by
  unfold replaceTrailingWsL
  cases hrev : s.reverse with
  | nil => rw [hrev] at hc; exact absurd hc (by simp)
  | cons c0 r =>
    rw [hrev] at hc
    simp only [List.head?_cons, Option.some.injEq] at hc
    subst hc
    simp [hw]

/-- Stripping the trailing underscore from a name that carries one. -/
theorem stripTrailingUnderscore_append (nb : List Char) :
    stripTrailingUnderscore (nb ++ ['_']) = nb := by
  unfold stripTrailingUnderscore
  rw [List.reverse_append]
  simp

/-- A name does not equal itself with a trailing underscore appended. -/
theorem stringMk_ne_appendUnderscore (nb : List Char) :
    String.mk nb ≠ String.mk (nb ++ ['_']) := by
  intro h
  have hdata : nb = nb ++ ['_'] := congrArg String.data h
  have := congrArg List.length hdata
  simp at this

/-- Renaming a member expression with a known identifier property. -/
theorem renameE_member_ident (old new : String) (lo : Expr) (nm : String) (lc : Bool) :
    renameE old new (.member lo (.ident nm) lc)
      = .member (renameE old new lo)
          (.ident (if lo = .thisE ∧ nm = old then new else nm)) lc := by
  cases lo <;> simp [renameE] <;> split <;> simp_all [renameE]

/-- A member access on a property other than the old name carries no
reference to the old name beyond its object part. -/
theorem hasThisRefE_member_ident_false (old nm : String) (h2 : nm ≠ old) (A : Expr)
    (hA : hasThisRefE old A = false) (lc : Bool) :
    hasThisRefE old (.member A (.ident nm) lc) = false := by
  cases A <;> simp_all [hasThisRefE]

/-- C8 (confirmed): when an exportable-property call exports a member
whose name carries a trailing underscore and whose preceding statement's
comment block carries the `@protected` and `@private` tags, the fold step
renames the member by stripping the trailing underscore, renames every
`this`-qualified self-reference in the whole tree identically, leaves no
reference to the old name anywhere in the result, and produces a
carried-over comment from which the `@private` and `@protected` tag lines
are removed (with `@export` appended). -/
theorem c8_private_export_rename
    (prog : List Stmt) (j : Nat) (cs pcs : List (List Char))
    (e lo : Expr) (lc : Bool) (rhs : Expr) (nb : List Char)
    (x y z : List Char) (cz : Char)
    (hcall : prog.get? (j + 1) = Option.some (.exprStmt cs e))
    (hprev : prog.get? j
      = Option.some (.exprStmt pcs
          (.assignE (.member lo (.ident (String.mk (nb ++ ['_']))) lc) rhs)))
    (hlast : pcs.getLast?
      = Option.some (x ++ ("\n * @protected".data ++ (y ++ ("\n * @private".data ++ z)))))
    (hx : ∀ c ∈ x, c ≠ '@') (hy : ∀ c ∈ y, c ≠ '@') (hz : ∀ c ∈ z, c ≠ '@')
    (hexp : containsL (x ++ ("\n * @protected".data ++ (y ++ ("\n * @private".data ++ z))))
        "@export".data = false)
    (hz1 : z.reverse.head? = Option.some cz) (hz2 : isJsWs cz = true)
    (hz3 : ∃ c ∈ z, isJsWs c = false) :
    exportFoldStep prog (j + 1)
      = ((prog.map (renameS (String.mk (nb ++ ['_'])) (String.mk nb))).set j
           (.exprStmt
             (pcs.dropLast
               ++ [x ++ (y ++ (trimRightWsL z ++ "\n * @export\n ".data))])
             (.assignE
               (.member (renameE (String.mk (nb ++ ['_'])) (String.mk nb) lo)
                 (.ident (String.mk nb)) lc)
               (renameE (String.mk (nb ++ ['_'])) (String.mk nb) rhs)))).set (j + 1)
          (.exprStmt cs (.commentBlockE "JSCS-REMOVE".data)) ∧
    (∀ s ∈ exportFoldStep prog (j + 1),
      hasThisRefS (String.mk (nb ++ ['_'])) s = false) ∧
    containsL (x ++ (y ++ (trimRightWsL z ++ "\n * @export\n ".data)))
      "@private".data = false ∧
    containsL (x ++ (y ++ (trimRightWsL z ++ "\n * @export\n ".data)))
      "@protected".data = false := by
  set oldN := String.mk (nb ++ ['_']) with holdN
  set newN := String.mk nb with hnewN
  have hnames : oldN ≠ newN := (stringMk_ne_appendUnderscore nb).symm
  have hnames2 : newN ≠ oldN := stringMk_ne_appendUnderscore nb
  -- the comment text and its rewriting chain
  set comment := x ++ ("\n * @protected".data ++ (y ++ ("\n * @private".data ++ z)))
    with hcomment
  have hcz : comment.reverse.head? = Option.some cz := by
    have hre : comment = (x ++ ("\n * @protected".data ++ (y ++ "\n * @private".data))) ++ z := by
      simp [hcomment, List.append_assoc]
    rw [hre, List.reverse_append, List.head?_append, hz1]
    rfl
  have hc1 : addExportTag comment
      = (x ++ ("\n * @protected".data ++ (y ++ "\n * @private".data))) ++ trimRightWsL z
          ++ "\n * @export\n ".data := by
    rw [addExportTag, if_neg (by simp [hexp]), replaceTrailingWsL_eq _ _ cz hcz hz2]
    have hre : comment = (x ++ ("\n * @protected".data ++ (y ++ "\n * @private".data))) ++ z := by
      simp [hcomment, List.append_assoc]
    rw [hre, trimRightWsL_append _ _ hz3]
  have hprot4 : ("\n * @protected".data).get? 4 = Option.some '@' := by decide
  have hprotlow : ∀ k, k < 4 → ("\n * @protected".data).get? k ≠ Option.some '@' := by decide
  have hpriv4 : ("\n * @private".data).get? 4 = Option.some '@' := by decide
  have hprivlow : ∀ k, k < 4 → ("\n * @private".data).get? k ≠ Option.some '@' := by decide
  have hc2 : replaceFirstL (addExportTag comment) "\n * @protected".data []
      = x ++ (y ++ ("\n * @private".data ++ (trimRightWsL z ++ "\n * @export\n ".data))) := by
    rw [hc1]
    have hre : (x ++ ("\n * @protected".data ++ (y ++ "\n * @private".data))) ++ trimRightWsL z
        ++ "\n * @export\n ".data
        = x ++ ("\n * @protected".data
            ++ (y ++ ("\n * @private".data ++ (trimRightWsL z ++ "\n * @export\n ".data)))) := by
      simp [List.append_assoc]
    rw [hre, replaceFirstL_boundary "\n * @protected".data 4 (by decide) hprot4 hprotlow
      x _ [] hx]
    rfl
  have hc2priv : containsL
      (x ++ (y ++ ("\n * @private".data ++ (trimRightWsL z ++ "\n * @export\n ".data))))
      "@private".data = true := by
    have hre : x ++ (y ++ ("\n * @private".data ++ (trimRightWsL z ++ "\n * @export\n ".data)))
        = (x ++ (y ++ "\n * ".data))
            ++ ("@private".data ++ (trimRightWsL z ++ "\n * @export\n ".data)) := by
      simp [List.append_assoc]
    rw [hre]
    exact containsL_append_self "@private".data _ _
  have hc3 : replaceFirstL
      (x ++ (y ++ ("\n * @private".data ++ (trimRightWsL z ++ "\n * @export\n ".data))))
      "\n * @private".data []
      = x ++ (y ++ (trimRightWsL z ++ "\n * @export\n ".data)) := by
    have hre : x ++ (y ++ ("\n * @private".data ++ (trimRightWsL z ++ "\n * @export\n ".data)))
        = (x ++ y) ++ ("\n * @private".data ++ (trimRightWsL z ++ "\n * @export\n ".data)) := by
      simp [List.append_assoc]
    rw [hre, replaceFirstL_boundary "\n * @private".data 4 (by decide) hpriv4 hprivlow
      (x ++ y) _ [] (by
        intro c hc
        rcases List.mem_append.1 hc with hm | hm
        · exact hx c hm
        · exact hy c hm)]
    simp [List.append_assoc]
  -- the rename step
  have hstrip : String.mk (stripTrailingUnderscore oldN.data) = newN := by
    rw [holdN]
    show String.mk (stripTrailingUnderscore (nb ++ ['_'])) = newN
    rw [stripTrailingUnderscore_append]
  have hrename : renamePrivateFn prog oldN = (newN, prog.map (renameS oldN newN)) := by
    rw [renamePrivateFn]
    rw [hstrip]
    rw [if_pos hnames2]
  -- trimmed tail is @-free
  have hxyz : ∀ c ∈ x ++ (y ++ (trimRightWsL z ++ "\n * @export\n ".data)), c ≠ '@' →
      True := fun _ _ _ => trivial
  have htagfree : ∀ c ∈ x ++ (y ++ trimRightWsL z), c ≠ '@' := by
    intro c hcmem
    rcases List.mem_append.1 hcmem with hm | hm
    · exact hx c hm
    · rcases List.mem_append.1 hm with hm2 | hm2
      · exact hy c hm2
      · exact hz c (mem_trimRightWsL hm2)
  have hnopriv : containsL (x ++ (y ++ (trimRightWsL z ++ "\n * @export\n ".data)))
      "@private".data = false := by
    have hre : x ++ (y ++ (trimRightWsL z ++ "\n * @export\n ".data))
        = (x ++ (y ++ trimRightWsL z)) ++ "\n * @export\n ".data := by
      simp [List.append_assoc]
    rw [hre, containsL_append_atFree "@private".data (by decide) _ _ htagfree]
    decide
  have hnoprot : containsL (x ++ (y ++ (trimRightWsL z ++ "\n * @export\n ".data)))
      "@protected".data = false := by
    have hre : x ++ (y ++ (trimRightWsL z ++ "\n * @export\n ".data))
        = (x ++ (y ++ trimRightWsL z)) ++ "\n * @export\n ".data := by
      simp [List.append_assoc]
    rw [hre, containsL_append_atFree "@protected".data (by decide) _ _ htagfree]
    decide
  -- the main computation
  have hmain : exportFoldStep prog (j + 1)
      = ((prog.map (renameS oldN newN)).set j
           (.exprStmt
             (pcs.dropLast ++ [x ++ (y ++ (trimRightWsL z ++ "\n * @export\n ".data))])
             (.assignE (.member (renameE oldN newN lo) (.ident newN) lc)
               (renameE oldN newN rhs)))).set (j + 1)
          (.exprStmt cs (.commentBlockE "JSCS-REMOVE".data)) := by
    simp only [exportFoldStep, hcall, hprev, hlast, hc2, hc2priv, if_true, hrename, hc3]
    rw [if_neg (Ne.symm hnames)]
    simp only [renameE, renameE_member_ident, setAssignLeftName]
  refine ⟨hmain, ?_, hnopriv, hnoprot⟩
  intro s hs
  rw [hmain] at hs
  rcases List.mem_or_eq_of_mem_set hs with hs1 | hs1
  · rcases List.mem_or_eq_of_mem_set hs1 with hs2 | hs2
    · obtain ⟨t, _, ht2⟩ := List.mem_map.1 hs2
      rw [← ht2]
      exact renameS_no_ref oldN newN hnames t
    · rw [hs2]
      have h1 : hasThisRefE oldN (renameE oldN newN lo) = false :=
        renameE_no_ref oldN newN hnames lo
      have h2 : hasThisRefE oldN (renameE oldN newN rhs) = false :=
        renameE_no_ref oldN newN hnames rhs
      have h3 := hasThisRefE_member_ident_false oldN newN hnames2
        (renameE oldN newN lo) h1 lc
      show (hasThisRefE oldN (.member (renameE oldN newN lo) (.ident newN) lc)
          || hasThisRefE oldN (renameE oldN newN rhs)) = false
      rw [h3, h2]
      rfl
  · rw [hs1]
    rfl

theorem c8_private_export_rename_witness :
    (∀ s ∈ exportFoldStep
        [Stmt.exprStmt
            ["*\n * Does things.".data
              ++ ("\n * @protected".data ++ ([] ++ ("\n * @private".data ++ "\n * More.\n ".data)))]
            (.assignE
              (.member
                (.member (.member (.ident "test") (.ident "Object") false)
                  (.ident "prototype") false)
                (.ident "fn_") false)
              (.fnExpr []
                (.cons (.exprStmt []
                  (.callE (.member .thisE (.ident "fn_") false) .nil)) .nil))),
         Stmt.exprStmt []
            (.callE (.member (.ident "goog") (.ident "exportProperty") false)
              (.cons (.member (.member (.ident "test") (.ident "Object") false)
                  (.ident "prototype") false)
                (.cons (.lit "fn")
                  (.cons (.member (.member (.member (.ident "test") (.ident "Object") false)
                      (.ident "prototype") false) (.ident "fn_") false) .nil))))] 1,
      hasThisRefS (String.mk ("fn".data ++ ['_'])) s = false) ∧
    containsL ("*\n * Does things.".data
        ++ ([] ++ (trimRightWsL "\n * More.\n ".data ++ "\n * @export\n ".data)))
      "@private".data = false :=
  ⟨(c8_private_export_rename
      [Stmt.exprStmt
          ["*\n * Does things.".data
            ++ ("\n * @protected".data ++ ([] ++ ("\n * @private".data ++ "\n * More.\n ".data)))]
          (.assignE
            (.member
              (.member (.member (.ident "test") (.ident "Object") false)
                (.ident "prototype") false)
              (.ident "fn_") false)
            (.fnExpr []
              (.cons (.exprStmt []
                (.callE (.member .thisE (.ident "fn_") false) .nil)) .nil))),
       Stmt.exprStmt []
          (.callE (.member (.ident "goog") (.ident "exportProperty") false)
            (.cons (.member (.member (.ident "test") (.ident "Object") false)
                (.ident "prototype") false)
              (.cons (.lit "fn")
                (.cons (.member (.member (.member (.ident "test") (.ident "Object") false)
                    (.ident "prototype") false) (.ident "fn_") false) .nil))))]
      0 []
      ["*\n * Does things.".data
        ++ ("\n * @protected".data ++ ([] ++ ("\n * @private".data ++ "\n * More.\n ".data)))]
      (.callE (.member (.ident "goog") (.ident "exportProperty") false)
        (.cons (.member (.member (.ident "test") (.ident "Object") false)
            (.ident "prototype") false)
          (.cons (.lit "fn")
            (.cons (.member (.member (.member (.ident "test") (.ident "Object") false)
                (.ident "prototype") false) (.ident "fn_") false) .nil))))
      (.member (.member (.ident "test") (.ident "Object") false) (.ident "prototype") false)
      false
      (.fnExpr []
        (.cons (.exprStmt []
          (.callE (.member .thisE (.ident "fn_") false) .nil)) .nil))
      "fn".data
      "*\n * Does things.".data [] "\n * More.\n ".data ' '
      (by decide) (by decide) (by decide)
      (by decide) (by decide) (by decide)
      (by decide) (by decide) (by decide) (by decide)).2.1,
   (c8_private_export_rename
      [Stmt.exprStmt
          ["*\n * Does things.".data
            ++ ("\n * @protected".data ++ ([] ++ ("\n * @private".data ++ "\n * More.\n ".data)))]
          (.assignE
            (.member
              (.member (.member (.ident "test") (.ident "Object") false)
                (.ident "prototype") false)
              (.ident "fn_") false)
            (.fnExpr []
              (.cons (.exprStmt []
                (.callE (.member .thisE (.ident "fn_") false) .nil)) .nil))),
       Stmt.exprStmt []
          (.callE (.member (.ident "goog") (.ident "exportProperty") false)
            (.cons (.member (.member (.ident "test") (.ident "Object") false)
                (.ident "prototype") false)
              (.cons (.lit "fn")
                (.cons (.member (.member (.member (.ident "test") (.ident "Object") false)
                    (.ident "prototype") false) (.ident "fn_") false) .nil))))]
      0 []
      ["*\n * Does things.".data
        ++ ("\n * @protected".data ++ ([] ++ ("\n * @private".data ++ "\n * More.\n ".data)))]
      (.callE (.member (.ident "goog") (.ident "exportProperty") false)
        (.cons (.member (.member (.ident "test") (.ident "Object") false)
            (.ident "prototype") false)
          (.cons (.lit "fn")
            (.cons (.member (.member (.member (.ident "test") (.ident "Object") false)
                (.ident "prototype") false) (.ident "fn_") false) .nil))))
      (.member (.member (.ident "test") (.ident "Object") false) (.ident "prototype") false)
      false
      (.fnExpr []
        (.cons (.exprStmt []
          (.callE (.member .thisE (.ident "fn_") false) .nil)) .nil))
      "fn".data
      "*\n * Does things.".data [] "\n * More.\n ".data ' '
      (by decide) (by decide) (by decide)
      (by decide) (by decide) (by decide)
      (by decide) (by decide) (by decide) (by decide)).2.2.1⟩

/-! ## Claim C10: the export-property fallback leaves no
`goog.exportProperty` call behind -/

/-- The fallback transform turns a call expression into either an
assignment or a call. -/
theorem gepFallbackE_callE_shape (c : Expr) (a : ExprList) :
    (∃ l r, gepFallbackE (.callE c a) = .assignE l r) ∨
      (∃ c' a', gepFallbackE (.callE c a) = .callE c' a') := by
  rcases a with _ | ⟨a0, _ | ⟨a1, _ | ⟨a2, rest⟩⟩⟩
  · exact Or.inr ⟨_, _, rfl⟩
  · exact Or.inr ⟨_, _, rfl⟩
  · exact Or.inr ⟨_, _, rfl⟩
  · simp only [gepFallbackE]
    split
    · exact Or.inl ⟨_, _, rfl⟩
    · exact Or.inr ⟨_, _, rfl⟩

/-- The fallback transform does not change whether an expression is the
`goog.exportProperty` callee. -/
theorem isGEPCallee_gepFallback (e : Expr) :
    isGEPCallee (gepFallbackE e) = isGEPCallee e := by
  cases e with
  | member o p c =>
    cases o with
    | ident a =>
      cases p with
      | ident b => rfl
      | callE c2 a2 =>
        show isGEPCallee (.member (.ident a) (gepFallbackE (.callE c2 a2)) c) = false
        rcases gepFallbackE_callE_shape c2 a2 with ⟨l, r, heq⟩ | ⟨c', a', heq⟩ <;>
          rw [heq] <;> rfl
      | _ => rfl
    | callE c2 a2 =>
      show isGEPCallee (.member (gepFallbackE (.callE c2 a2)) (gepFallbackE p) c) = false
      rcases gepFallbackE_callE_shape c2 a2 with ⟨l, r, heq⟩ | ⟨c', a', heq⟩ <;>
        rw [heq] <;> rfl
    | _ => rfl
  | callE c2 a2 =>
    rcases gepFallbackE_callE_shape c2 a2 with ⟨l, r, heq⟩ | ⟨c', a', heq⟩ <;> rw [heq] <;> rfl
  | _ => rfl

/-- Renaming preserves argument-list length. -/
theorem renameEL_length (o n : String) :
    (l : ExprList) → (renameEL o n l).length = l.length
  | .nil => rfl
  | .cons h t => by
    have := renameEL_length o n t
    simp [renameEL, ExprList.length, this]

/-- Renaming does not change whether an expression is the
`goog.exportProperty` callee. -/
theorem isGEPCallee_rename (oldN newN : String) (e : Expr) :
    isGEPCallee (renameE oldN newN e) = isGEPCallee e := by
  cases e with
  | member o p c =>
    cases o with
    | thisE =>
      cases p with
      | ident b =>
        show isGEPCallee (if b = oldN then Expr.member .thisE (.ident newN) c
          else Expr.member .thisE (.ident b) c) = false
        split <;> rfl
      | member o2 p2 c2 =>
        obtain ⟨o', p', heq⟩ := renameE_member_is_member oldN newN o2 p2 c2
        show isGEPCallee (.member .thisE (renameE oldN newN (.member o2 p2 c2)) c) = false
        rw [heq]
        rfl
      | _ => rfl
    | ident a =>
      cases p with
      | ident b => rfl
      | member o2 p2 c2 =>
        obtain ⟨o', p', heq⟩ := renameE_member_is_member oldN newN o2 p2 c2
        show isGEPCallee (.member (.ident a) (renameE oldN newN (.member o2 p2 c2)) c)
          = isGEPCallee (.member (.ident a) (.member o2 p2 c2) c)
        rw [heq]
        rfl
      | _ => rfl
    | member o2 p2 c2 =>
      obtain ⟨o', p', heq⟩ := renameE_member_is_member oldN newN o2 p2 c2
      show isGEPCallee (.member (renameE oldN newN (.member o2 p2 c2)) (renameE oldN newN p) c)
        = isGEPCallee (.member (.member o2 p2 c2) p c)
      rw [heq]
      rfl
    | _ => rfl
  | _ => rfl

mutual

/-- Renaming preserves well-formedness of `goog.exportProperty` calls. -/
theorem wfGEPE_rename (oldN newN : String) :
    (e : Expr) → wfGEPE (renameE oldN newN e) = wfGEPE e
  | .ident n => rfl
  | .lit v => rfl
  | .thisE => rfl
  | .superE => rfl
  | .commentBlockE t => rfl
  | .member o p c => by
    have ho := wfGEPE_rename oldN newN o
    have hp := wfGEPE_rename oldN newN p
    cases o with
    | thisE =>
      cases p with
      | ident b =>
        show wfGEPE (if b = oldN then Expr.member .thisE (.ident newN) c
          else Expr.member .thisE (.ident b) c) = wfGEPE (.member .thisE (.ident b) c)
        split <;> rfl
      | member o2 p2 c2 =>
        show (wfGEPE Expr.thisE && wfGEPE (renameE oldN newN (.member o2 p2 c2)))
          = (wfGEPE Expr.thisE && wfGEPE (.member o2 p2 c2))
        rw [hp]
      | callE cal ar =>
        show (wfGEPE Expr.thisE && wfGEPE (renameE oldN newN (.callE cal ar)))
          = (wfGEPE Expr.thisE && wfGEPE (.callE cal ar))
        rw [hp]
      | assignE al ar2 =>
        show (wfGEPE Expr.thisE && wfGEPE (renameE oldN newN (.assignE al ar2)))
          = (wfGEPE Expr.thisE && wfGEPE (.assignE al ar2))
        rw [hp]
      | unaryE op2 a2 =>
        show (wfGEPE Expr.thisE && wfGEPE (renameE oldN newN (.unaryE op2 a2)))
          = (wfGEPE Expr.thisE && wfGEPE (.unaryE op2 a2))
        rw [hp]
      | binaryE op2 bl br =>
        show (wfGEPE Expr.thisE && wfGEPE (renameE oldN newN (.binaryE op2 bl br)))
          = (wfGEPE Expr.thisE && wfGEPE (.binaryE op2 bl br))
        rw [hp]
      | newE ncal nar =>
        show (wfGEPE Expr.thisE && wfGEPE (renameE oldN newN (.newE ncal nar)))
          = (wfGEPE Expr.thisE && wfGEPE (.newE ncal nar))
        rw [hp]
      | fnExpr ps2 b2 =>
        show (wfGEPE Expr.thisE && wfGEPE (renameE oldN newN (.fnExpr ps2 b2)))
          = (wfGEPE Expr.thisE && wfGEPE (.fnExpr ps2 b2))
        rw [hp]
      | lit v => rfl
      | thisE => rfl
      | superE => rfl
      | commentBlockE t => rfl
    | ident a =>
      show (wfGEPE (renameE oldN newN (.ident a)) && wfGEPE (renameE oldN newN p))
        = (wfGEPE (.ident a) && wfGEPE p)
      rw [ho, hp]
    | lit v =>
      show (wfGEPE (renameE oldN newN (.lit v)) && wfGEPE (renameE oldN newN p))
        = (wfGEPE (.lit v) && wfGEPE p)
      rw [ho, hp]
    | superE =>
      show (wfGEPE (renameE oldN newN (Expr.superE)) && wfGEPE (renameE oldN newN p))
        = (wfGEPE (Expr.superE) && wfGEPE p)
      rw [ho, hp]
    | commentBlockE t =>
      show (wfGEPE (renameE oldN newN (.commentBlockE t)) && wfGEPE (renameE oldN newN p))
        = (wfGEPE (.commentBlockE t) && wfGEPE p)
      rw [ho, hp]
    | member o2 p2 c2 =>
      show (wfGEPE (renameE oldN newN (.member o2 p2 c2)) && wfGEPE (renameE oldN newN p))
        = (wfGEPE (.member o2 p2 c2) && wfGEPE p)
      rw [ho, hp]
    | callE cal ar =>
      show (wfGEPE (renameE oldN newN (.callE cal ar)) && wfGEPE (renameE oldN newN p))
        = (wfGEPE (.callE cal ar) && wfGEPE p)
      rw [ho, hp]
    | assignE al ar2 =>
      show (wfGEPE (renameE oldN newN (.assignE al ar2)) && wfGEPE (renameE oldN newN p))
        = (wfGEPE (.assignE al ar2) && wfGEPE p)
      rw [ho, hp]
    | unaryE op2 a2 =>
      show (wfGEPE (renameE oldN newN (.unaryE op2 a2)) && wfGEPE (renameE oldN newN p))
        = (wfGEPE (.unaryE op2 a2) && wfGEPE p)
      rw [ho, hp]
    | binaryE op2 bl br =>
      show (wfGEPE (renameE oldN newN (.binaryE op2 bl br)) && wfGEPE (renameE oldN newN p))
        = (wfGEPE (.binaryE op2 bl br) && wfGEPE p)
      rw [ho, hp]
    | newE ncal nar =>
      show (wfGEPE (renameE oldN newN (.newE ncal nar)) && wfGEPE (renameE oldN newN p))
        = (wfGEPE (.newE ncal nar) && wfGEPE p)
      rw [ho, hp]
    | fnExpr ps2 b2 =>
      show (wfGEPE (renameE oldN newN (.fnExpr ps2 b2)) && wfGEPE (renameE oldN newN p))
        = (wfGEPE (.fnExpr ps2 b2) && wfGEPE p)
      rw [ho, hp]
  | .callE f a => by
    have hf := wfGEPE_rename oldN newN f
    have ha := wfGEPEL_rename oldN newN a
    show ((!isGEPCall (.callE (renameE oldN newN f) (renameEL oldN newN a))
          || decide (3 ≤ (renameEL oldN newN a).length))
        && wfGEPE (renameE oldN newN f) && wfGEPEL (renameEL oldN newN a))
      = ((!isGEPCall (.callE f a) || decide (3 ≤ a.length)) && wfGEPE f && wfGEPEL a)
    have hgep : isGEPCall (.callE (renameE oldN newN f) (renameEL oldN newN a))
        = isGEPCall (.callE f a) := by
      show isGEPCallee (renameE oldN newN f) = isGEPCallee f
      exact isGEPCallee_rename oldN newN f
    rw [hgep, renameEL_length, hf, ha]
  | .assignE l r => by
    have hl := wfGEPE_rename oldN newN l
    have hr := wfGEPE_rename oldN newN r
    show (wfGEPE (renameE oldN newN l) && wfGEPE (renameE oldN newN r)) = (wfGEPE l && wfGEPE r)
    rw [hl, hr]
  | .unaryE op a => by
    have ha := wfGEPE_rename oldN newN a
    show wfGEPE (renameE oldN newN a) = wfGEPE a
    exact ha
  | .binaryE op l r => by
    have hl := wfGEPE_rename oldN newN l
    have hr := wfGEPE_rename oldN newN r
    show (wfGEPE (renameE oldN newN l) && wfGEPE (renameE oldN newN r)) = (wfGEPE l && wfGEPE r)
    rw [hl, hr]
  | .newE f a => by
    have hf := wfGEPE_rename oldN newN f
    have ha := wfGEPEL_rename oldN newN a
    show (wfGEPE (renameE oldN newN f) && wfGEPEL (renameEL oldN newN a)) = (wfGEPE f && wfGEPEL a)
    rw [hf, ha]
  | .fnExpr ps b => by
    have hb := wfGEPSL_rename oldN newN b
    show wfGEPSL (renameSL oldN newN b) = wfGEPSL b
    exact hb

theorem wfGEPEL_rename (oldN newN : String) :
    (l : ExprList) → wfGEPEL (renameEL oldN newN l) = wfGEPEL l
  | .nil => rfl
  | .cons h t => by
    have h1 := wfGEPE_rename oldN newN h
    have h2 := wfGEPEL_rename oldN newN t
    show (wfGEPE (renameE oldN newN h) && wfGEPEL (renameEL oldN newN t))
      = (wfGEPE h && wfGEPEL t)
    rw [h1, h2]

theorem wfGEPO_rename (oldN newN : String) :
    (o : OExpr) → wfGEPO (renameO oldN newN o) = wfGEPO o
  | .none => rfl
  | .some e => wfGEPE_rename oldN newN e

theorem wfGEPS_rename (oldN newN : String) :
    (s : Stmt) → wfGEPS (renameS oldN newN s) = wfGEPS s
  | .exprStmt cs e => wfGEPE_rename oldN newN e
  | .varDecl cs k n i => wfGEPO_rename oldN newN i
  | .classDecl cs n sc b => by
    have h1 := wfGEPO_rename oldN newN sc
    have h2 := wfGEPSL_rename oldN newN b
    show (wfGEPO (renameO oldN newN sc) && wfGEPSL (renameSL oldN newN b))
      = (wfGEPO sc && wfGEPSL b)
    rw [h1, h2]
  | .methodDef cs k st n v => wfGEPE_rename oldN newN v
  | .returnStmt e => wfGEPE_rename oldN newN e
  | .ifStmt t c => by
    have h1 := wfGEPE_rename oldN newN t
    have h2 := wfGEPSL_rename oldN newN c
    show (wfGEPE (renameE oldN newN t) && wfGEPSL (renameSL oldN newN c))
      = (wfGEPE t && wfGEPSL c)
    rw [h1, h2]

theorem wfGEPSL_rename (oldN newN : String) :
    (l : StmtList) → wfGEPSL (renameSL oldN newN l) = wfGEPSL l
  | .nil => rfl
  | .cons s t => by
    have h1 := wfGEPS_rename oldN newN s
    have h2 := wfGEPSL_rename oldN newN t
    show (wfGEPS (renameS oldN newN s) && wfGEPSL (renameSL oldN newN t))
      = (wfGEPS s && wfGEPSL t)
    rw [h1, h2]

end


mutual

/-- On well-formed trees, the fallback pass leaves no `goog.exportProperty`
call anywhere. -/
theorem gepFallbackE_noGEP :
    (e : Expr) → wfGEPE e = true → containsGEPE (gepFallbackE e) = false
  | .ident n, _ => by simp [gepFallbackE, containsGEPE]
  | .lit v, _ => by simp [gepFallbackE, containsGEPE]
  | .thisE, _ => by simp [gepFallbackE, containsGEPE]
  | .superE, _ => by simp [gepFallbackE, containsGEPE]
  | .commentBlockE t, _ => by simp [gepFallbackE, containsGEPE]
  | .member o p c, hw => by
    simp only [wfGEPE, Bool.and_eq_true] at hw
    obtain ⟨hwo, hwp⟩ := hw
    simp only [gepFallbackE, containsGEPE]
    rw [gepFallbackE_noGEP o hwo, gepFallbackE_noGEP p hwp]
    rfl
  | .assignE l r, hw => by
    simp only [wfGEPE, Bool.and_eq_true] at hw
    obtain ⟨hwl, hwr⟩ := hw
    simp only [gepFallbackE, containsGEPE]
    rw [gepFallbackE_noGEP l hwl, gepFallbackE_noGEP r hwr]
    rfl
  | .unaryE op a, hw => by
    simp only [wfGEPE] at hw
    simp only [gepFallbackE, containsGEPE]
    exact gepFallbackE_noGEP a hw
  | .binaryE op l r, hw => by
    simp only [wfGEPE, Bool.and_eq_true] at hw
    obtain ⟨hwl, hwr⟩ := hw
    simp only [gepFallbackE, containsGEPE]
    rw [gepFallbackE_noGEP l hwl, gepFallbackE_noGEP r hwr]
    rfl
  | .newE f a, hw => by
    simp only [wfGEPE, Bool.and_eq_true] at hw
    obtain ⟨hwf, hwa⟩ := hw
    simp only [gepFallbackE, containsGEPE]
    rw [gepFallbackE_noGEP f hwf, gepFallbackEL_noGEP a hwa]
    rfl
  | .fnExpr ps b, hw => by
    simp only [wfGEPE] at hw
    simp only [gepFallbackE, containsGEPE]
    exact gepFallbackSL_noGEP b hw
  | .callE callee .nil, hw => by
    simp only [wfGEPE, wfGEPEL, isGEPCall, Bool.and_true, Bool.and_eq_true] at hw
    obtain ⟨h2, hcal⟩ := hw
    have hgep : isGEPCallee callee = false := by
      cases hx : isGEPCallee callee with
      | false => rfl
      | true => rw [hx] at h2; exact absurd h2 (by decide)
    simp only [gepFallbackE, gepFallbackEL, containsGEPE, containsGEPEL, isGEPCall]
    rw [isGEPCallee_gepFallback, hgep, gepFallbackE_noGEP callee hcal]
    rfl
  | .callE callee (.cons a0 .nil), hw => by
    simp only [wfGEPE, wfGEPEL, isGEPCall, Bool.and_true, Bool.and_eq_true] at hw
    obtain ⟨⟨h2, hcal⟩, hwa0⟩ := hw
    have hgep : isGEPCallee callee = false := by
      cases hx : isGEPCallee callee with
      | false => rfl
      | true => rw [hx] at h2; simp [ExprList.length] at h2
    simp only [gepFallbackE, gepFallbackEL, containsGEPE, containsGEPEL, isGEPCall]
    rw [isGEPCallee_gepFallback, hgep, gepFallbackE_noGEP callee hcal,
      gepFallbackE_noGEP a0 hwa0]
    rfl
  | .callE callee (.cons a0 (.cons a1 .nil)), hw => by
    simp only [wfGEPE, wfGEPEL, isGEPCall, Bool.and_true, Bool.and_eq_true] at hw
    obtain ⟨⟨h2, hcal⟩, hwa0, hwa1⟩ := hw
    have hgep : isGEPCallee callee = false := by
      cases hx : isGEPCallee callee with
      | false => rfl
      | true => rw [hx] at h2; simp [ExprList.length] at h2
    simp only [gepFallbackE, gepFallbackEL, containsGEPE, containsGEPEL, isGEPCall]
    rw [isGEPCallee_gepFallback, hgep, gepFallbackE_noGEP callee hcal,
      gepFallbackE_noGEP a0 hwa0, gepFallbackE_noGEP a1 hwa1]
    rfl
  | .callE callee (.cons a0 (.cons a1 (.cons a2 rest))), hw => by
    simp only [wfGEPE, wfGEPEL, isGEPCall, Bool.and_eq_true] at hw
    obtain ⟨⟨h2, hcal⟩, hwa0, hwa1, hwa2, hrest⟩ := hw
    by_cases hgep : isGEPCallee callee = true
    · have heq : gepFallbackE (.callE callee (.cons a0 (.cons a1 (.cons a2 rest))))
          = .assignE (.member (gepFallbackE a0) (gepFallbackE a1) false) (gepFallbackE a2) := by
        simp [gepFallbackE, isGEPCall, hgep]
      rw [heq]
      simp only [containsGEPE]
      rw [gepFallbackE_noGEP a0 hwa0, gepFallbackE_noGEP a1 hwa1, gepFallbackE_noGEP a2 hwa2]
      rfl
    · have hgf : isGEPCallee callee = false := by
        cases hx : isGEPCallee callee with
        | false => rfl
        | true => exact absurd hx hgep
      have heq : gepFallbackE (.callE callee (.cons a0 (.cons a1 (.cons a2 rest))))
          = .callE (gepFallbackE callee)
              (.cons (gepFallbackE a0)
                (.cons (gepFallbackE a1) (.cons (gepFallbackE a2) (gepFallbackEL rest)))) := by
        simp [gepFallbackE, isGEPCall, hgf]
      rw [heq]
      simp only [containsGEPE, containsGEPEL, isGEPCall]
      rw [isGEPCallee_gepFallback, hgf, gepFallbackE_noGEP callee hcal,
        gepFallbackE_noGEP a0 hwa0, gepFallbackE_noGEP a1 hwa1, gepFallbackE_noGEP a2 hwa2,
        gepFallbackEL_noGEP rest hrest]
      rfl

theorem gepFallbackEL_noGEP :
    (l : ExprList) → wfGEPEL l = true → containsGEPEL (gepFallbackEL l) = false
  | .nil, _ => by simp [gepFallbackEL, containsGEPEL]
  | .cons h t, hw => by
    simp only [wfGEPEL, Bool.and_eq_true] at hw
    obtain ⟨hwh, hwt⟩ := hw
    simp only [gepFallbackEL, containsGEPEL]
    rw [gepFallbackE_noGEP h hwh, gepFallbackEL_noGEP t hwt]
    rfl

theorem gepFallbackO_noGEP :
    (o : OExpr) → wfGEPO o = true → containsGEPO (gepFallbackO o) = false
  | .none, _ => by simp [gepFallbackO, containsGEPO]
  | .some e, hw => by
    simp only [wfGEPO] at hw
    simp only [gepFallbackO, containsGEPO]
    exact gepFallbackE_noGEP e hw

theorem gepFallbackS_noGEP :
    (s : Stmt) → wfGEPS s = true → containsGEPS (gepFallbackS s) = false
  | .exprStmt cs e, hw => by
    simp only [wfGEPS] at hw
    simp only [gepFallbackS, containsGEPS]
    exact gepFallbackE_noGEP e hw
  | .varDecl cs k n i, hw => by
    simp only [wfGEPS] at hw
    simp only [gepFallbackS, containsGEPS]
    exact gepFallbackO_noGEP i hw
  | .classDecl cs n sc b, hw => by
    simp only [wfGEPS, Bool.and_eq_true] at hw
    obtain ⟨hwsc, hwb⟩ := hw
    simp only [gepFallbackS, containsGEPS]
    rw [gepFallbackO_noGEP sc hwsc, gepFallbackSL_noGEP b hwb]
    rfl
  | .methodDef cs k st n v, hw => by
    simp only [wfGEPS] at hw
    simp only [gepFallbackS, containsGEPS]
    exact gepFallbackE_noGEP v hw
  | .returnStmt e, hw => by
    simp only [wfGEPS] at hw
    simp only [gepFallbackS, containsGEPS]
    exact gepFallbackE_noGEP e hw
  | .ifStmt t c, hw => by
    simp only [wfGEPS, Bool.and_eq_true] at hw
    obtain ⟨hwt, hwc⟩ := hw
    simp only [gepFallbackS, containsGEPS]
    rw [gepFallbackE_noGEP t hwt, gepFallbackSL_noGEP c hwc]
    rfl

theorem gepFallbackSL_noGEP :
    (l : StmtList) → wfGEPSL l = true → containsGEPSL (gepFallbackSL l) = false
  | .nil, _ => by simp [gepFallbackSL, containsGEPSL]
  | .cons s t, hw => by
    simp only [wfGEPSL, Bool.and_eq_true] at hw
    obtain ⟨hws, hwt⟩ := hw
    simp only [gepFallbackSL, containsGEPSL]
    rw [gepFallbackS_noGEP s hws, gepFallbackSL_noGEP t hwt]
    rfl

end

/-- Setting one well-formed statement preserves program well-formedness. -/
theorem wfGEPProg_set {prog : List Stmt} {s : Stmt} {i : Nat}
    (hp : wfGEPProg prog = true) (hs : wfGEPS s = true) :
    wfGEPProg (prog.set i s) = true := by
  simp only [wfGEPProg, List.all_eq_true] at hp ⊢
  intro x hx
  rcases List.mem_or_eq_of_mem_set hx with h | h
  · exact hp x h
  · subst h; exact hs

/-- Renaming a private member throughout the program preserves
well-formedness. -/
theorem wfGEPProg_renameMap (a b : String) {prog : List Stmt}
    (hp : wfGEPProg prog = true) :
    wfGEPProg (prog.map (renameS a b)) = true := by
  simp only [wfGEPProg, List.all_eq_true] at hp ⊢
  intro x hx
  obtain ⟨y, hy, rfl⟩ := List.mem_map.1 hx
  rw [wfGEPS_rename]
  exact hp y hy

/-- The tree produced by `renamePrivateFn` stays well-formed. -/
theorem wfGEPProg_renamePrivateFn (prog : List Stmt) (name : String)
    (hp : wfGEPProg prog = true) :
    wfGEPProg (renamePrivateFn prog name).2 = true := by
  by_cases h : String.mk (stripTrailingUnderscore name.data) ≠ name
  · simp only [renamePrivateFn, if_pos h]
    exact wfGEPProg_renameMap _ _ hp
  · simp only [renamePrivateFn, if_neg h]
    exact hp

/-- One folding step of the export transform preserves program
well-formedness: the only expressions it installs are the removal marker,
the (possibly renamed) preceding assignment, and renamed copies of
existing statements. -/
theorem wfGEPProg_exportFoldStep (prog : List Stmt) (i : Nat)
    (hp : wfGEPProg prog = true) : wfGEPProg (exportFoldStep prog i) = true := by
  unfold exportFoldStep
  simp only []
  split
  · exact hp
  · split
    · rename_i pcs pe hgj
      have hwpe : wfGEPS (.exprStmt pcs pe) = true := by
        simp only [wfGEPProg, List.all_eq_true] at hp
        exact hp _ (List.get?_mem hgj)
      split
      · rename_i newComment0 hlast
        split
        · split
          · rename_i lo lname lc rhs
            apply wfGEPProg_set
            · apply wfGEPProg_set
              · exact wfGEPProg_renamePrivateFn prog lname hp
              · show wfGEPE (setAssignLeftName _ _) = true
                have hw2 : wfGEPE (.assignE (.member lo (.ident lname) lc) rhs)
                    = true := hwpe
                simp only [wfGEPE, Bool.and_eq_true] at hw2
                by_cases hr : (renamePrivateFn prog lname).1 = lname
                · simp only [if_pos hr, setAssignLeftName]
                  simp only [wfGEPE, Bool.and_eq_true]
                  exact ⟨⟨hw2.1.1, trivial⟩, hw2.2⟩
                · simp only [if_neg hr]
                  rw [show renameE lname (renamePrivateFn prog lname).1
                        (.assignE (.member lo (.ident lname) lc) rhs)
                      = .assignE
                          (renameE lname (renamePrivateFn prog lname).1
                            (.member lo (.ident lname) lc))
                          (renameE lname (renamePrivateFn prog lname).1 rhs)
                      from rfl]
                  rw [renameE_member_ident]
                  simp only [setAssignLeftName]
                  simp only [wfGEPE, Bool.and_eq_true, wfGEPE_rename]
                  exact ⟨⟨hw2.1.1, trivial⟩, hw2.2⟩
            · rfl
          · exact hp
        · apply wfGEPProg_set
          · apply wfGEPProg_set
            · exact hp
            · exact hwpe
          · rfl
      · exact hp
    · exact hp
  · exact hp

/-- Folding any list of exportable indices preserves well-formedness. -/
theorem wfGEPProg_foldl (idxs : List Nat) :
    (prog : List Stmt) → wfGEPProg prog = true →
    wfGEPProg (idxs.foldl exportFoldStep prog) = true := by
  induction idxs with
  | nil => intro prog hp; simpa using hp
  | cons i rest ih =>
    intro prog hp
    simp only [List.foldl_cons]
    exact ih _ (wfGEPProg_exportFoldStep prog i hp)

/-- Mapping the fallback pass over a well-formed program removes every
`goog.exportProperty` call. -/
theorem containsGEPProg_fallbackMap (prog : List Stmt)
    (hp : wfGEPProg prog = true) :
    containsGEPProg (prog.map gepFallbackS) = false := by
  simp only [containsGEPProg, List.any_eq_false]
  intro x hx
  obtain ⟨y, hy, rfl⟩ := List.mem_map.1 hx
  have hw : wfGEPS y = true := by
    simp only [wfGEPProg, List.all_eq_true] at hp
    exact hp y hy
  simp [gepFallbackS_noGEP y hw]

/-- C10 (confirmed, for programs whose `goog.exportProperty` calls all
carry at least three arguments — with fewer the original transform throws
while building the member expression): a `goog.exportProperty` call not
folded away by the `@export` pass is replaced by the fallback pass with an
assignment whose left side is a (non-computed) member expression built
from the call's first two arguments and whose right side is the call's
third argument; and after the whole transform no `goog.exportProperty`
call remains anywhere in the output program. -/
theorem c10_export_fallback (prog : List Stmt) (hw : wfGEPProg prog = true) :
    (∀ (callee a0 a1 a2 : Expr) (rest : ExprList), isGEPCallee callee = true →
      gepFallbackE (.callE callee (.cons a0 (.cons a1 (.cons a2 rest))))
        = .assignE (.member (gepFallbackE a0) (gepFallbackE a1) false) (gepFallbackE a2))
    ∧ containsGEPProg (exportPropertyTransform prog) = false := by
  constructor
  · intro callee a0 a1 a2 rest hgep
    simp [gepFallbackE, isGEPCall, hgep]
  · show containsGEPProg ((exportFoldPass prog).map gepFallbackS) = false
    exact containsGEPProg_fallbackMap _ (wfGEPProg_foldl _ prog hw)

/-- C10 witness: a program holding a single non-exportable
`goog.exportProperty` call (a literal export name differing from the
member name, with no preceding commented statement) is well-formed, and
the transform leaves no `goog.exportProperty` call in its output. -/
theorem c10_export_fallback_witness :
    wfGEPProg
        [Stmt.exprStmt []
          (.callE (.member (.ident "goog") (.ident "exportProperty") false)
            (.cons (.member (.ident "X") (.ident "prototype") false)
              (.cons (.lit "run")
                (.cons (.member (.member (.ident "X") (.ident "prototype") false)
                    (.ident "run_") false) .nil))))] = true
    ∧ containsGEPProg
        (exportPropertyTransform
          [Stmt.exprStmt []
            (.callE (.member (.ident "goog") (.ident "exportProperty") false)
              (.cons (.member (.ident "X") (.ident "prototype") false)
                (.cons (.lit "run")
                  (.cons (.member (.member (.ident "X") (.ident "prototype") false)
                      (.ident "run_") false) .nil))))]) = false :=
  ⟨by decide,
    (c10_export_fallback
      [Stmt.exprStmt []
        (.callE (.member (.ident "goog") (.ident "exportProperty") false)
          (.cons (.member (.ident "X") (.ident "prototype") false)
            (.cons (.lit "run")
              (.cons (.member (.member (.ident "X") (.ident "prototype") false)
                  (.ident "run_") false) .nil))))] (by decide)).2⟩
